import Mathlib

set_option linter.unusedSectionVars false
set_option linter.unusedVariables false

/-!
# Verification development for `layers/Embed.py`

This file gives a shallow embedding of the input-embedding modules of the
time-series library (`PositionalEmbedding`, `TokenEmbedding`,
`TemporalEmbedding`, `TimeFeatureEmbedding`, the exo-prompt-tuning data
embeddings, `DataEmbedding_inverted` and `PatchEmbedding`) and proves
properties of their tensor semantics.

Modelling conventions:

* A tensor of rank 3 is a batch-major nested list (`Tensor3 α`); shapes are
  dynamic, exactly as in the host framework, and are described by the
  well-formedness predicates `WF2` / `WF3`.
* Tensor element values are exact numbers.  Structural modules are stated
  over `ℚ` so that concrete instances evaluate by `decide`; the sinusoidal
  positional table, which genuinely needs `Real.sin` / `Real.cos` /
  `Real.exp` / `Real.log`, is defined over `ℝ`.
* Learned weights (convolution kernels, linear layers, lookup tables) are
  created by the host framework's random initialisers, so constructors take
  them as explicit arguments; everything else in a constructor is translated
  from the source.  The pointwise `Tanh` activation of the two-layer MLP
  projector is likewise abstracted as an explicit field (at `ℝ` it is the
  framework's `tanh`); no claim below depends on its values.
* `Dropout` is modelled in evaluation mode, where it is the identity map.
* Out-of-range lookups are totalised with default values (`0`, `[]`); the
  theorems only ever exercise in-range indices.
-/

namespace Embed

/-- Rank-3 tensor as a batch-major nested list. -/
abbrev Tensor3 (α : Type) := List (List (List α))

/-- Element of a vector, defaulting to `0` out of range. -/
def vget {α : Type} [Zero α] (v : List α) (i : ℕ) : α := v.getD i 0

/-- Element of a matrix (list of rows), defaulting to `0` out of range. -/
def mget {α : Type} [Zero α] (m : List (List α)) (i j : ℕ) : α :=
  vget (m.getD i []) j

/-- Element of a rank-3 tensor, defaulting to `0` out of range. -/
def tget {α : Type} [Zero α] (t : Tensor3 α) (b i j : ℕ) : α :=
  mget (t.getD b []) i j

/-- A matrix has `r` rows, each of length `c`. -/
def WF2 {α : Type} (m : List (List α)) (r c : ℕ) : Prop :=
  m.length = r ∧ ∀ row ∈ m, row.length = c

/-- A rank-3 tensor has shape `[b, r, c]`. -/
def WF3 {α : Type} (t : Tensor3 α) (b r c : ℕ) : Prop :=
  t.length = b ∧ ∀ m ∈ t, WF2 m r c

instance {α : Type} [DecidableEq α] (m : List (List α)) (r c : ℕ) :
    Decidable (WF2 m r c) := by
  unfold WF2; infer_instance

instance {α : Type} [DecidableEq α] (t : Tensor3 α) (b r c : ℕ) :
    Decidable (WF3 t b r c) := by
  unfold WF3; infer_instance

/-- `t.size(1)` of a rank-3 tensor. -/
def size1 {α : Type} (t : Tensor3 α) : ℕ := (t.headD []).length

/-- `t.size(2)` of a rank-3 tensor. -/
def size2 {α : Type} (t : Tensor3 α) : ℕ := ((t.headD []).headD []).length

/-- `torch.cat([a, b], dim=1)`. -/
def cat1 {α : Type} (a b : Tensor3 α) : Tensor3 α :=
  List.zipWith (fun x y => x ++ y) a b

/-- `torch.cat([a, b], dim=2)`. -/
def cat2 {α : Type} (a b : Tensor3 α) : Tensor3 α :=
  List.zipWith (List.zipWith (fun x y => x ++ y)) a b

/-- Elementwise sum of two matrices. -/
def add2 {α : Type} [Add α] (a b : List (List α)) : List (List α) :=
  List.zipWith (List.zipWith (fun x y => x + y)) a b

/-- Elementwise sum of two rank-3 tensors. -/
def add3 {α : Type} [Add α] (a b : Tensor3 α) : Tensor3 α :=
  List.zipWith add2 a b

/-- Sum of `x : [B, L, D]` with a batch-1 tensor `[1, L, D]`, broadcasting
over the batch dimension as the host framework does. -/
def addB {α : Type} [Add α] (x pos : Tensor3 α) : Tensor3 α :=
  x.map fun m => add2 m (pos.headD [])

/-- Matrix transposition (`permute` of the last two axes) for a matrix of
shape `[r, c]`. -/
def transposeM {α : Type} [Zero α] (m : List (List α)) : List (List α) :=
  (List.range (m.headD []).length).map fun j => m.map fun row => vget row j

/-- Rank-3 tensor of shape `[b, r, c]` built from an entry function. -/
def mk3 {α : Type} (b r c : ℕ) (f : ℕ → ℕ → ℕ → α) : Tensor3 α :=
  (List.range b).map fun i =>
    (List.range r).map fun j =>
      (List.range c).map fun k => f i j k

/-- `torch.zeros_like`. -/
def zerosLike {α : Type} [Zero α] (t : Tensor3 α) : Tensor3 α :=
  t.map (List.map (List.map fun _ => (0 : α)))

/-- Dot product of two vectors. -/
def dot {α : Type} [Mul α] [AddCommMonoid α] (a b : List α) : α :=
  (List.zipWith (fun x y => x * y) a b).sum

/-- `nn.Linear` with bias: `W` is `[out, in]` row-major, `bv` the bias. -/
def linear {α : Type} [Mul α] [AddCommMonoid α] [Zero α]
    (W : List (List α)) (bv : List α) (v : List α) : List α :=
  (List.range W.length).map fun o => dot (W.getD o []) v + vget bv o

/-- `nn.Linear(bias=False)`. -/
def linearNoBias {α : Type} [Mul α] [AddCommMonoid α] [Zero α]
    (W : List (List α)) (v : List α) : List α :=
  (List.range W.length).map fun o => dot (W.getD o []) v

section GetterLemmas

variable {α : Type} [Zero α]

theorem vget_eq_getElem (v : List α) {i : ℕ} (h : i < v.length) :
    vget v i = v[i] := by
  simp [vget, List.getD_eq_getElem?_getD, List.getElem?_eq_getElem h]

theorem vget_of_le (v : List α) {i : ℕ} (h : v.length ≤ i) :
    vget v i = 0 := by
  simp [vget, List.getD_eq_getElem?_getD, List.getElem?_eq_none h]

theorem mget_eq (m : List (List α)) {i : ℕ} (hi : i < m.length) (j : ℕ) :
    mget m i j = vget m[i] j := by
  simp [mget, List.getD_eq_getElem?_getD, List.getElem?_eq_getElem hi]

theorem tget_eq (t : Tensor3 α) {b : ℕ} (hb : b < t.length) (i j : ℕ) :
    tget t b i j = mget t[b] i j := by
  simp [tget, List.getD_eq_getElem?_getD, List.getElem?_eq_getElem hb]

theorem mk3_length {b r c : ℕ} (f : ℕ → ℕ → ℕ → α) :
    (mk3 b r c f).length = b := by
  simp [mk3]

theorem mk3_WF {b r c : ℕ} (f : ℕ → ℕ → ℕ → α) : WF3 (mk3 b r c f) b r c := by
  constructor
  · simp [mk3]
  · intro m hm
    simp only [mk3, List.mem_map, List.mem_range] at hm
    obtain ⟨i, _, rfl⟩ := hm
    constructor
    · simp
    · intro row hrow
      simp only [List.mem_map, List.mem_range] at hrow
      obtain ⟨j, _, rfl⟩ := hrow
      simp

theorem tget_mk3 {b r c : ℕ} (f : ℕ → ℕ → ℕ → α) {i j k : ℕ}
    (hi : i < b) (hj : j < r) (hk : k < c) :
    tget (mk3 b r c f) i j k = f i j k := by
  rw [tget_eq _ (by simpa [mk3] using hi)]
  simp only [mk3, List.getElem_map, List.getElem_range]
  rw [mget_eq _ (by simpa using hj)]
  simp only [List.getElem_map, List.getElem_range]
  rw [vget_eq_getElem _ (by simpa using hk)]
  simp

end GetterLemmas

section StructureLemmas

variable {α : Type} [Zero α]

theorem WF2.headD_length {m : List (List α)} {r c : ℕ}
    (h : WF2 m r c) (hr : 0 < r) : (m.headD []).length = c := by
  obtain ⟨hlen, hrow⟩ := h
  cases m with
  | nil => simp at hlen; omega
  | cons a t => exact hrow a (by simp)

theorem WF3.batch {t : Tensor3 α} {B r c : ℕ} (h : WF3 t B r c)
    {b : ℕ} (hb : b < B) : WF2 (t.getD b []) r c := by
  obtain ⟨hlen, hm⟩ := h
  have hb' : b < t.length := by omega
  rw [List.getD_eq_getElem?_getD, List.getElem?_eq_getElem hb']
  exact hm _ (List.getElem_mem hb')

theorem WF3.size1_eq {t : Tensor3 α} {B r c : ℕ} (h : WF3 t B r c)
    (hB : 0 < B) : size1 t = r := by
  obtain ⟨hlen, hm⟩ := h
  cases t with
  | nil => simp at hlen; omega
  | cons a s => exact (hm a (by simp)).1

theorem WF3.row_length {t : Tensor3 α} {B r c : ℕ} (h : WF3 t B r c)
    {b i : ℕ} (hb : b < B) (hi : i < r) :
    ((t.getD b []).getD i []).length = c := by
  have h2 := h.batch hb
  obtain ⟨hlen, hrow⟩ := h2
  have hi' : i < (t.getD b []).length := by omega
  rw [List.getD_eq_getElem?_getD, List.getElem?_eq_getElem hi']
  exact hrow _ (List.getElem_mem hi')

theorem getD_eq_get {β : Type} (l : List β) (d : β) {i : ℕ} (h : i < l.length) :
    l.getD i d = l[i] := by
  rw [List.getD_eq_getElem?_getD, List.getElem?_eq_getElem h, Option.getD_some]

theorem getD_eq_default {β : Type} (l : List β) (d : β) {i : ℕ}
    (h : l.length ≤ i) : l.getD i d = d := by
  rw [List.getD_eq_getElem?_getD, List.getElem?_eq_none h, Option.getD_none]

theorem getD_append {β : Type} (a b : List β) (d : β) (i : ℕ) :
    (a ++ b).getD i d = if i < a.length then a.getD i d else b.getD (i - a.length) d := by
  by_cases h : i < a.length
  · rw [if_pos h, getD_eq_get _ _ (by simp; omega), getD_eq_get _ _ h,
        List.getElem_append_left h]
  · rw [if_neg h]
    by_cases h2 : i - a.length < b.length
    · rw [getD_eq_get _ _ (by simp; omega), getD_eq_get _ _ h2,
          List.getElem_append_right (by omega)]
    · rw [getD_eq_default _ _ (by simp; omega), getD_eq_default _ _ (by omega)]

theorem vget_append (a b : List α) (i : ℕ) :
    vget (a ++ b) i = if i < a.length then vget a i else vget b (i - a.length) := by
  unfold vget; exact getD_append a b 0 i

theorem zipWith_getD {β γ : Type} (f : β → β → γ) (a b : List β) {i : ℕ}
    (dβ : β) (dγ : γ) (hi : i < a.length) (hi' : i < b.length) :
    (List.zipWith f a b).getD i dγ = f (a.getD i dβ) (b.getD i dβ) := by
  rw [getD_eq_get _ _ (by rw [List.length_zipWith]; omega),
      List.getElem_zipWith, getD_eq_get _ _ hi, getD_eq_get _ _ hi']

/-- Entry of `cat1` (concatenation along `dim=1`). -/
theorem tget_cat1 {a b : Tensor3 α} {B r1 r2 c : ℕ}
    (ha : WF3 a B r1 c) (hb : WF3 b B r2 c)
    {i : ℕ} (hi : i < B) (j k : ℕ) :
    tget (cat1 a b) i j k =
      if j < r1 then tget a i j k else tget b i (j - r1) k := by
  have hA := ha.1
  have hB := hb.1
  have hia : i < a.length := by omega
  have hib : i < b.length := by omega
  have hrows : (a.getD i []).length = r1 := (ha.batch hi).1
  unfold cat1 tget mget
  rw [zipWith_getD (fun x y => x ++ y) a b [] [] hia hib]
  by_cases hj : j < r1
  · rw [getD_append, if_pos (by omega), if_pos hj]
  · rw [getD_append, if_neg (by omega), if_neg hj, hrows]

theorem WF2_append {a b : List (List α)} {r1 r2 c : ℕ}
    (ha : WF2 a r1 c) (hb : WF2 b r2 c) : WF2 (a ++ b) (r1 + r2) c := by
  constructor
  · simp [ha.1, hb.1]
  · intro row hrow
    rcases List.mem_append.mp hrow with h | h
    · exact ha.2 _ h
    · exact hb.2 _ h

theorem WF3_cat1 {a b : Tensor3 α} {B r1 r2 c : ℕ}
    (ha : WF3 a B r1 c) (hb : WF3 b B r2 c) :
    WF3 (cat1 a b) B (r1 + r2) c := by
  constructor
  · simp [cat1, List.length_zipWith, ha.1, hb.1]
  · intro m hm
    unfold cat1 at hm
    rw [List.mem_iff_getElem] at hm
    obtain ⟨i, hlen, rfl⟩ := hm
    rw [List.length_zipWith] at hlen
    rw [List.getElem_zipWith]
    exact WF2_append (ha.2 _ (List.getElem_mem (by omega)))
      (hb.2 _ (List.getElem_mem (by omega)))

/-- Entry of `cat2` (concatenation along `dim=2`). -/
theorem tget_cat2 {a b : Tensor3 α} {B r c1 c2 : ℕ}
    (ha : WF3 a B r c1) (hb : WF3 b B r c2)
    {i j : ℕ} (hi : i < B) (hj : j < r) (k : ℕ) :
    tget (cat2 a b) i j k =
      if k < c1 then tget a i j k else tget b i j (k - c1) := by
  have hA := ha.1
  have hB := hb.1
  have hia : i < a.length := by omega
  have hib : i < b.length := by omega
  have hja : j < (a.getD i []).length := by
    rw [(ha.batch hi).1]; omega
  have hjb : j < (b.getD i []).length := by
    rw [(hb.batch hi).1]; omega
  unfold cat2 tget mget vget
  rw [zipWith_getD (List.zipWith fun x y => x ++ y) a b [] [] hia hib]
  rw [zipWith_getD (fun x y => x ++ y) _ _ [] [] hja hjb]
  have hcols : ((a.getD i []).getD j []).length = c1 := ha.row_length hi hj
  by_cases hk : k < c1
  · rw [getD_append, if_pos (by omega), if_pos hk]
  · rw [getD_append, if_neg (by omega), if_neg hk, hcols]

theorem WF3_cat2 {a b : Tensor3 α} {B r c1 c2 : ℕ}
    (ha : WF3 a B r c1) (hb : WF3 b B r c2) :
    WF3 (cat2 a b) B r (c1 + c2) := by
  constructor
  · simp [cat2, List.length_zipWith, ha.1, hb.1]
  · intro m hm
    unfold cat2 at hm
    rw [List.mem_iff_getElem] at hm
    obtain ⟨i, hlen, rfl⟩ := hm
    rw [List.length_zipWith] at hlen
    rw [List.getElem_zipWith]
    have h2a := ha.2 _ (List.getElem_mem (show i < a.length by omega))
    have h2b := hb.2 _ (List.getElem_mem (show i < b.length by omega))
    constructor
    · simp [List.length_zipWith, h2a.1, h2b.1]
    · intro row hrow
      rw [List.mem_iff_getElem] at hrow
      obtain ⟨j, hj, rfl⟩ := hrow
      rw [List.length_zipWith] at hj
      rw [List.getElem_zipWith]
      simp only [List.length_append]
      rw [h2a.2 _ (List.getElem_mem (by omega)),
          h2b.2 _ (List.getElem_mem (by omega))]

end StructureLemmas

/-- Apply a row transformation (e.g. a linear layer) to every row of every
batch of a rank-3 tensor. -/
def mapRows {α β : Type} (f : List α → List β) (t : Tensor3 α) : Tensor3 β :=
  t.map (List.map f)

section MoreLemmas

variable {α : Type} [Zero α]

theorem tget_mapRows {β : Type} [Zero β] (f : List α → List β) {t : Tensor3 α}
    {B r c : ℕ} (h : WF3 t B r c) {i j : ℕ} (hi : i < B) (hj : j < r) (k : ℕ) :
    tget (mapRows f t) i j k = vget (f ((t.getD i []).getD j [])) k := by
  have hit : i < t.length := by rw [h.1]; omega
  have hjt : j < t[i].length := by
    have := (h.batch hi).1
    rw [getD_eq_get t [] hit] at this
    omega
  unfold mapRows tget mget
  rw [getD_eq_get _ _ (show i < (t.map (List.map f)).length by
        rw [List.length_map]; omega)]
  rw [List.getElem_map]
  rw [getD_eq_get _ _ (show j < (List.map f t[i]).length by
        rw [List.length_map]; omega)]
  rw [List.getElem_map, getD_eq_get t [] hit, getD_eq_get _ _ hjt]

theorem WF3_mapRows {β : Type} (f : List α → List β) {t : Tensor3 α}
    {B r c d : ℕ} (h : WF3 t B r c)
    (hf : ∀ v : List α, v.length = c → (f v).length = d) :
    WF3 (mapRows f t) B r d := by
  constructor
  · simp [mapRows, h.1]
  · intro m hm
    simp only [mapRows, List.mem_map] at hm
    obtain ⟨m', hm', rfl⟩ := hm
    have h2 := h.2 _ hm'
    constructor
    · simp [h2.1]
    · intro row hrow
      simp only [List.mem_map] at hrow
      obtain ⟨r', hr', rfl⟩ := hrow
      exact hf _ (h2.2 _ hr')

theorem mget_add2 {a b : List (List α)} [Add α] {r c : ℕ}
    (ha : WF2 a r c) (hb : WF2 b r c) {i j : ℕ} (hi : i < r) (hj : j < c) :
    mget (add2 a b) i j = mget a i j + mget b i j := by
  have hia : i < a.length := by rw [ha.1]; omega
  have hib : i < b.length := by rw [hb.1]; omega
  have hja : j < (a.getD i []).length := by
    rw [ha.2 _ (by rw [getD_eq_get _ _ hia]; exact List.getElem_mem hia)]; omega
  have hjb : j < (b.getD i []).length := by
    rw [hb.2 _ (by rw [getD_eq_get _ _ hib]; exact List.getElem_mem hib)]; omega
  unfold add2 mget vget
  rw [zipWith_getD (List.zipWith fun x y => x + y) a b [] [] hia hib]
  rw [zipWith_getD (fun x y => x + y) _ _ 0 0 hja hjb]

theorem WF2_add2 {a b : List (List α)} [Add α] {r c : ℕ}
    (ha : WF2 a r c) (hb : WF2 b r c) : WF2 (add2 a b) r c := by
  constructor
  · simp [add2, List.length_zipWith, ha.1, hb.1]
  · intro row hrow
    unfold add2 at hrow
    rw [List.mem_iff_getElem] at hrow
    obtain ⟨i, hlen, rfl⟩ := hrow
    rw [List.length_zipWith] at hlen
    rw [List.getElem_zipWith, List.length_zipWith]
    rw [ha.2 _ (List.getElem_mem (by omega)), hb.2 _ (List.getElem_mem (by omega))]
    omega

theorem tget_add3 {a b : Tensor3 α} [Add α] {B r c : ℕ}
    (ha : WF3 a B r c) (hb : WF3 b B r c)
    {i j k : ℕ} (hi : i < B) (hj : j < r) (hk : k < c) :
    tget (add3 a b) i j k = tget a i j k + tget b i j k := by
  have hia : i < a.length := by rw [ha.1]; omega
  have hib : i < b.length := by rw [hb.1]; omega
  unfold add3 tget
  rw [zipWith_getD add2 a b [] [] hia hib]
  exact mget_add2 (ha.batch hi) (hb.batch hi) hj hk

theorem WF3_add3 {a b : Tensor3 α} [Add α] {B r c : ℕ}
    (ha : WF3 a B r c) (hb : WF3 b B r c) : WF3 (add3 a b) B r c := by
  constructor
  · simp [add3, List.length_zipWith, ha.1, hb.1]
  · intro m hm
    unfold add3 at hm
    rw [List.mem_iff_getElem] at hm
    obtain ⟨i, hlen, rfl⟩ := hm
    rw [List.length_zipWith] at hlen
    rw [List.getElem_zipWith]
    exact WF2_add2 (ha.2 _ (List.getElem_mem (by omega)))
      (hb.2 _ (List.getElem_mem (by omega)))

theorem tget_addB {x pos : Tensor3 α} [Add α] {B r c : ℕ}
    (hx : WF3 x B r c) (hpos : WF2 (pos.headD []) r c)
    {i j k : ℕ} (hi : i < B) (hj : j < r) (hk : k < c) :
    tget (addB x pos) i j k = tget x i j k + mget (pos.headD []) j k := by
  have hix : i < x.length := by rw [hx.1]; omega
  unfold addB tget
  rw [getD_eq_get _ _ (by rw [List.length_map]; omega), List.getElem_map,
      ← getD_eq_get x [] hix]
  exact mget_add2 (hx.batch hi) hpos hj hk

theorem WF3_addB {x pos : Tensor3 α} [Add α] {B r c : ℕ}
    (hx : WF3 x B r c) (hpos : WF2 (pos.headD []) r c) :
    WF3 (addB x pos) B r c := by
  constructor
  · simp [addB, hx.1]
  · intro m hm
    simp only [addB, List.mem_map] at hm
    obtain ⟨m', hm', rfl⟩ := hm
    exact WF2_add2 (hx.2 _ hm') hpos

theorem WF2_transposeM {m : List (List α)} {r c : ℕ}
    (h : WF2 m r c) (hr : 0 < r) : WF2 (transposeM m) c r := by
  constructor
  · unfold transposeM
    rw [List.length_map, List.length_range, h.headD_length hr]
  · intro row hrow
    simp only [transposeM, List.mem_map, List.mem_range] at hrow
    obtain ⟨j, _, rfl⟩ := hrow
    rw [List.length_map, h.1]

theorem mget_transposeM {m : List (List α)} {r c : ℕ}
    (h : WF2 m r c) (hr : 0 < r) {i j : ℕ} (hi : i < c) (hj : j < r) :
    mget (transposeM m) i j = mget m j i := by
  have hlen : (m.headD []).length = c := h.headD_length hr
  have hjm : j < m.length := by rw [h.1]; omega
  unfold transposeM mget
  rw [getD_eq_get _ _ (show i <
        ((List.range (m.headD []).length).map fun j => m.map fun row => vget row j).length by
        rw [List.length_map, List.length_range, hlen]; omega)]
  rw [List.getElem_map, List.getElem_range]
  unfold vget
  rw [getD_eq_get _ _ (show j < (m.map fun row => row.getD i 0).length by
        rw [List.length_map]; omega)]
  rw [List.getElem_map, ← getD_eq_get m [] hjm]

theorem linear_length {W : List (List α)} [Mul α] [AddCommMonoid α]
    (bv v : List α) : (linear W bv v).length = W.length := by
  simp [linear]

theorem linearNoBias_length {W : List (List α)} [Mul α] [AddCommMonoid α]
    (v : List α) : (linearNoBias W v).length = W.length := by
  simp [linearNoBias]

theorem vget_linear {W : List (List α)} [Mul α] [AddCommMonoid α]
    (bv v : List α) {o : ℕ} (ho : o < W.length) :
    vget (linear W bv v) o = dot (W.getD o []) v + vget bv o := by
  unfold linear vget
  rw [getD_eq_get _ _ (by simp; omega), List.getElem_map, List.getElem_range]

theorem vget_linearNoBias {W : List (List α)} [Mul α] [AddCommMonoid α]
    (v : List α) {o : ℕ} (ho : o < W.length) :
    vget (linearNoBias W v) o = dot (W.getD o []) v := by
  unfold linearNoBias vget
  rw [getD_eq_get _ _ (by simp; omega), List.getElem_map, List.getElem_range]

theorem WF3_zerosLike {t : Tensor3 α} {B r c : ℕ} (h : WF3 t B r c) :
    WF3 (zerosLike t) B r c := by
  constructor
  · simp [zerosLike, h.1]
  · intro m hm
    simp only [zerosLike, List.mem_map] at hm
    obtain ⟨m', hm', rfl⟩ := hm
    have h2 := h.2 _ hm'
    constructor
    · simp [h2.1]
    · intro row hrow
      simp only [List.mem_map] at hrow
      obtain ⟨r', hr', rfl⟩ := hrow
      simp [h2.2 _ hr']

theorem tget_zerosLike {t : Tensor3 α} {B r c : ℕ} (h : WF3 t B r c)
    {i j k : ℕ} (hi : i < B) (hj : j < r) (hk : k < c) :
    tget (zerosLike t) i j k = 0 := by
  have h0 := WF3_zerosLike h
  have hi0 : i < (zerosLike t).length := by rw [h0.1]; omega
  rw [tget_eq _ hi0]
  have h2 : WF2 (zerosLike t)[i] r c := h0.2 _ (List.getElem_mem hi0)
  have hj0 : j < (zerosLike t)[i].length := by rw [h2.1]; omega
  rw [mget_eq _ hj0]
  have h3 : ((zerosLike t)[i])[j].length = c := h2.2 _ (List.getElem_mem hj0)
  rw [vget_eq_getElem _ (show k < ((zerosLike t)[i])[j].length by omega)]
  simp [zerosLike]

end MoreLemmas

namespace PositionalEmbedding

/-- Entry `i` of the constructor's `div_term`, i.e. of
`(arange(0, d_model, 2).float() * -(log(10000.0) / d_model)).exp()`. -/
noncomputable def divTerm (d_model i : ℕ) : ℝ :=
  Real.exp ((2 * i : ℝ) * (-(Real.log 10000 / d_model)))

/-- The precomputed table `pe` of shape `[max_len, d_model]`:
`pe[:, 0::2] = sin(position * div_term)` and
`pe[:, 1::2] = cos(position * div_term)` (the assignments require an even
`d_model`, as in the source where the two slice widths must agree). -/
noncomputable def pe (d_model max_len : ℕ) : List (List ℝ) :=
  (List.range max_len).map fun (p : ℕ) =>
    (List.range d_model).map fun (c : ℕ) =>
      if c % 2 = 0 then Real.sin ((p : ℝ) * divTerm d_model (c / 2))
      else Real.cos ((p : ℝ) * divTerm d_model (c / 2))

/-- `forward`: returns `self.pe[:, :x.size(1)]`, a batch-1 slice of the
table.  Generic in the element type so that module structures holding a
table can reuse it. -/
def forward {α : Type} (peT : List (List α)) (x : Tensor3 α) : Tensor3 α :=
  [peT.take (size1 x)]

theorem pe_WF (d_model max_len : ℕ) : WF2 (pe d_model max_len) max_len d_model := by
  constructor
  · simp [pe]
  · intro row hrow
    simp only [pe, List.mem_map, List.mem_range] at hrow
    obtain ⟨p, _, rfl⟩ := hrow
    simp

theorem mget_pe {d_model max_len p c : ℕ} (hp : p < max_len) (hc : c < d_model) :
    mget (pe d_model max_len) p c =
      if c % 2 = 0 then Real.sin ((p : ℝ) * divTerm d_model (c / 2))
      else Real.cos ((p : ℝ) * divTerm d_model (c / 2)) := by
  unfold pe mget
  rw [getD_eq_get _ _ (show p < ((List.range max_len).map _).length by
        rw [List.length_map, List.length_range]; omega)]
  rw [List.getElem_map, List.getElem_range]
  unfold vget
  rw [getD_eq_get _ _ (show c < ((List.range d_model).map _).length by
        rw [List.length_map, List.length_range]; omega)]
  rw [List.getElem_map, List.getElem_range]

theorem divTerm_eq (d_model i : ℕ) :
    divTerm d_model i = ((10000 : ℝ) ^ (((2 * i : ℕ) : ℝ) / (d_model : ℝ)))⁻¹ := by
  unfold divTerm
  rw [Real.rpow_def_of_pos (by norm_num : (0 : ℝ) < 10000), ← Real.exp_neg]
  congr 1
  push_cast
  ring

theorem WF2_take {α : Type} {m : List (List α)} {r c : ℕ} (h : WF2 m r c)
    {L : ℕ} (hL : L ≤ r) : WF2 (m.take L) L c := by
  constructor
  · rw [List.length_take, h.1]; omega
  · intro row hrow
    exact h.2 _ (List.mem_of_mem_take hrow)

theorem getD_take {β : Type} (l : List β) (d : β) {n i : ℕ} (hi : i < n)
    (hl : i < l.length) : (l.take n).getD i d = l.getD i d := by
  rw [getD_eq_get _ _ (by rw [List.length_take]; omega), getD_eq_get _ _ hl,
      List.getElem_take]

end PositionalEmbedding

namespace TokenEmbedding

/-- Circular padding of one channel row by one element on each side
(`padding=1, padding_mode="circular"`, the torch ≥ 1.5 branch of the
constructor): the left pad wraps to the last element, the right pad to the
first. -/
def circularPad (row : List ℚ) : List ℚ :=
  [row.getLastD 0] ++ row ++ [row.headD 0]

/-- One output channel of the width-3 convolution.  `w : [c_in, 3]` is the
kernel for this output channel and `inp : [c_in, L+2]` the padded input;
the window count is `(L+2) - 3 + 1`. -/
def convChannel (w inp : List (List ℚ)) : List ℚ :=
  (List.range ((inp.headD []).length + 1 - 3)).map fun t =>
    (List.zipWith
      (fun wr xr => ((List.range 3).map fun k => vget wr k * vget xr (t + k)).sum)
      w inp).sum

/-- `nn.Conv1d(c_in, d_model, kernel_size=3, padding=1,
padding_mode="circular", bias=False)` applied to one batch `[c_in, L]`. -/
def conv1dCircular (w : Tensor3 ℚ) (inp : List (List ℚ)) : List (List ℚ) :=
  w.map fun wOut => convChannel wOut (inp.map circularPad)

/-- `forward`: `self.tokenConv(x.permute(0, 2, 1)).transpose(1, 2)`.  `w` is
the convolution weight tensor of shape `[d_model, c_in, 3]`. -/
def forward (w : Tensor3 ℚ) (x : Tensor3 ℚ) : Tensor3 ℚ :=
  x.map fun bm => transposeM (conv1dCircular w (transposeM bm))

theorem circularPad_length (row : List ℚ) :
    (circularPad row).length = row.length + 2 := by
  simp [circularPad]

theorem convChannel_length {w inp : List (List ℚ)} {C L : ℕ}
    (hinp : WF2 inp C (L + 2)) (hC : 0 < C) :
    (convChannel w inp).length = L := by
  unfold convChannel
  rw [List.length_map, List.length_range, hinp.headD_length hC]
  omega

theorem WF2_padded {inp : List (List ℚ)} {C L : ℕ} (h : WF2 inp C L) :
    WF2 (inp.map circularPad) C (L + 2) := by
  constructor
  · simp [h.1]
  · intro row hrow
    simp only [List.mem_map] at hrow
    obtain ⟨r', hr', rfl⟩ := hrow
    rw [circularPad_length, h.2 _ hr']

theorem WF2_conv1dCircular {w : Tensor3 ℚ} {inp : List (List ℚ)} {D C L : ℕ}
    (hw : WF3 w D C 3) (hinp : WF2 inp C L) (hC : 0 < C) :
    WF2 (conv1dCircular w inp) D L := by
  constructor
  · simp [conv1dCircular, hw.1]
  · intro row hrow
    simp only [conv1dCircular, List.mem_map] at hrow
    obtain ⟨wOut, hwOut, rfl⟩ := hrow
    exact convChannel_length (WF2_padded hinp) hC

/-- The width-3 circular convolution preserves the sequence length: on a
well-formed `[B, L, c_in]` input the output is well-formed of shape
`[B, L, d_model]`. -/
theorem forward_WF {w : Tensor3 ℚ} {x : Tensor3 ℚ} {B L C D : ℕ}
    (hw : WF3 w D C 3) (hx : WF3 x B L C)
    (hL : 0 < L) (hC : 0 < C) (hD : 0 < D) :
    WF3 (forward w x) B L D := by
  constructor
  · simp [forward, hx.1]
  · intro m hm
    simp only [forward, List.mem_map] at hm
    obtain ⟨bm, hbm, rfl⟩ := hm
    have h1 : WF2 (transposeM bm) C L := WF2_transposeM (hx.2 _ hbm) hL
    have h2 : WF2 (conv1dCircular w (transposeM bm)) D L :=
      WF2_conv1dCircular hw h1 hC
    exact WF2_transposeM h2 hD

end TokenEmbedding

/-- `x.long()` of the host framework: truncation toward zero (the fractional
part is discarded), i.e. floor for non-negative values and ceiling for
negative ones. -/
def longCast (q : ℚ) : ℤ := if Rat.blt q 0 then Rat.ceil q else Rat.floor q

/-- Cast a whole calendar tensor to integers, as `x = x.long()` does. -/
def longCast3 (x : Tensor3 ℚ) : List (List (List ℤ)) :=
  x.map (List.map (List.map longCast))

namespace TemporalEmbedding

/-- Totalised embedding-table lookup: row `i` of the weight matrix. -/
def lookup (tbl : List (List ℚ)) (i : ℤ) : List ℚ := tbl.getD i.toNat []

/-- `emb(x[:, :, k])` for a long-cast calendar tensor `xl`. -/
def lookupCol (tbl : List (List ℚ)) (xl : List (List (List ℤ))) (k : ℕ) :
    Tensor3 ℚ :=
  xl.map fun bm => bm.map fun row => lookup tbl (row.getD k 0)

/-- A `TemporalEmbedding` module.  The minute table exists only when the
module was constructed with `freq = "t"`.  Each table is the weight matrix
of a `FixedEmbedding` or `nn.Embedding` lookup; the `embed_type` flag only
selects which initialiser produced the weights, so the tables are data
here. -/
structure Module where
  minute_embed : Option (List (List ℚ))
  hour_embed : List (List ℚ)
  weekday_embed : List (List ℚ)
  day_embed : List (List ℚ)
  month_embed : List (List ℚ)

/-- The constructor (`__init__`): `minute_embed` is created iff
`freq == "t"`. -/
def init (embed_type freq : String) (mi ho we da mo : List (List ℚ)) : Module :=
  { minute_embed := if freq = "t" then some mi else none
    hour_embed := ho
    weekday_embed := we
    day_embed := da
    month_embed := mo }

/-- `forward`: cast the calendar tensor to long, look the fields up at the
fixed columns (minute 4, hour 3, weekday 2, day 1, month 0) and sum; a
missing minute embedding contributes the scalar `0.`, i.e. nothing. -/
def forward (m : Module) (x : Tensor3 ℚ) : Tensor3 ℚ :=
  let xl := longCast3 x
  let hour_x := lookupCol m.hour_embed xl 3
  let weekday_x := lookupCol m.weekday_embed xl 2
  let day_x := lookupCol m.day_embed xl 1
  let month_x := lookupCol m.month_embed xl 0
  let base := add3 (add3 (add3 hour_x weekday_x) day_x) month_x
  match m.minute_embed with
  | some tbl => add3 base (lookupCol tbl xl 4)
  | none => base

end TemporalEmbedding

namespace TimeFeatureEmbedding

/-- The constructor's `freq_map` dictionary. -/
def freqMap (freq : String) : Option ℕ :=
  List.lookup freq
    [("h", 4), ("t", 5), ("s", 6), ("m", 1), ("a", 1), ("w", 2), ("d", 3), ("b", 3)]

/-- A `TimeFeatureEmbedding` module: a single bias-free linear layer. -/
structure Module where
  embedW : List (List ℚ)

/-- The constructor (`__init__`): the dictionary access `freq_map[freq]`
fails (`KeyError`) iff `freq` is not one of the keys; the looked-up `d_inp`
only sizes the randomly initialised weight, which is the argument `W`
here. -/
def init (embed_type freq : String) (W : List (List ℚ)) : Option Module :=
  (freqMap freq).map fun _ => ⟨W⟩

/-- `forward`: the linear projection applied to each time step's feature
row. -/
def forward (m : Module) (x : Tensor3 ℚ) : Tensor3 ℚ :=
  mapRows (linearNoBias m.embedW) x

end TimeFeatureEmbedding

/-- The `temporal_embedding` attribute of a data embedding:
`TemporalEmbedding(...) if embed_type != "timeF" else
TimeFeatureEmbedding(...)`. -/
inductive TemporalKind where
  | temporal (m : TemporalEmbedding.Module)
  | timeF (m : TimeFeatureEmbedding.Module)

def TemporalKind.forward : TemporalKind → Tensor3 ℚ → Tensor3 ℚ
  | .temporal m, x => TemporalEmbedding.forward m x
  | .timeF m, x => TimeFeatureEmbedding.forward m x

/-- Builds the `temporal_embedding` attribute; fails exactly when
`TimeFeatureEmbedding` is selected and its frequency code is unknown. -/
def initTemporalKind (embed_type freq : String)
    (mi ho we da mo W : List (List ℚ)) : Option TemporalKind :=
  if embed_type ≠ "timeF" then
    some (.temporal (TemporalEmbedding.init embed_type freq mi ho we da mo))
  else
    (TimeFeatureEmbedding.init embed_type freq W).map .timeF

/-- `einops.repeat(e, "b v -> b l v", l=l)`: broadcast-repeat a `[B, V]`
matrix `l` times along a new middle axis. -/
def repeatMid {α : Type} (e : List (List α)) (l : ℕ) : Tensor3 α :=
  e.map fun v => List.replicate l v

/-- `einops.rearrange(v, "(l d) -> l d", l=l)` on one batch row: split into
`l` equal chunks (einops requires `l` to divide the length). -/
def rearrangeChunks {α : Type} (v : List α) (l : ℕ) : List (List α) :=
  (List.range l).map fun i => (v.drop (i * (v.length / l))).take (v.length / l)

/-- The prefix-tuning style projector `Linear → Tanh → Linear` built by the
`two_layer_mlp` branch of the constructors.  `tanh` abstracts the host
framework's pointwise hyperbolic tangent; no claim depends on its values. -/
structure PromptProjector where
  W1 : List (List ℚ)
  b1 : List ℚ
  W2 : List (List ℚ)
  b2 : List ℚ
  tanh : ℚ → ℚ

def PromptProjector.forward (p : PromptProjector) (v : List ℚ) : List ℚ :=
  linear p.W2 p.b2 ((linear p.W1 p.b1 v).map p.tanh)

/-- `exo_prompt = projector(exo_prompt); rearrange(exo_prompt,
"b (l d) -> b l d", l=num_virtual_tokens)`. -/
def projectPrompt (p : PromptProjector) (nvt : ℕ) (exo : List (List ℚ)) :
    Tensor3 ℚ :=
  exo.map fun v => rearrangeChunks (p.forward v) nvt

namespace DataEmbeddingWithExoPromptTuning

/-- Module state after construction.  `token_c_in` records the input width
the constructor gives the value `TokenEmbedding`.  Under `brute_concat` the
source sets the projector to `None` and never uses it; its weights here are
then dead data.  `posPe` is the positional table (over `ℝ` it is
`PositionalEmbedding.pe`); the claims below hold for every table.
`Dropout` is the identity in evaluation mode and is left out. -/
structure Module where
  prompt_tuning_type : String
  num_virtual_tokens : ℕ
  exo_prompt_dim : ℕ
  token_c_in : ℕ
  exo_prompt_projector : PromptProjector
  valueConvW : Tensor3 ℚ
  posPe : List (List ℚ)
  temporal : TemporalKind

/-- The constructor (`__init__`): rejects unknown `prompt_tuning_type`
values, gives the value embedding input width `c_in` (or
`c_in + exo_prompt_dim` under `brute_concat`), and builds the temporal
sub-module according to `embed_type` and `freq`. -/
def init (c_in d_model : ℕ) (embed_type freq : String) (dropout : ℚ)
    (prompt_tuning_type : String)
    (num_virtual_tokens exo_prompt_dim exo_prompt_projector_hidden_size : ℕ)
    (proj : PromptProjector) (convW : Tensor3 ℚ) (peT : List (List ℚ))
    (mi ho we da mo WT : List (List ℚ)) : Option Module :=
  if prompt_tuning_type = "two_layer_mlp" ∨ prompt_tuning_type = "brute_concat" then
    (initTemporalKind embed_type freq mi ho we da mo WT).map fun tk =>
      { prompt_tuning_type := prompt_tuning_type
        num_virtual_tokens := num_virtual_tokens
        exo_prompt_dim := exo_prompt_dim
        token_c_in :=
          if ¬ prompt_tuning_type ∈ ["brute_concat"] then c_in
          else c_in + exo_prompt_dim
        exo_prompt_projector := proj
        valueConvW := convW
        posPe := peT
        temporal := tk }
  else none

/-- `forward(x, x_mark, exo_prompt)`.  The `elif "two_layer_mlp"` branch is
modelled as the `else` branch: after construction `prompt_tuning_type` is
one of the two accepted tags.  `Dropout` is the identity in evaluation
mode. -/
def forward (m : Module) (x : Tensor3 ℚ) (x_mark : Option (Tensor3 ℚ))
    (exo_prompt : List (List ℚ)) : Tensor3 ℚ :=
  let exoT : Tensor3 ℚ :=
    if m.prompt_tuning_type = "brute_concat" then repeatMid exo_prompt (size1 x)
    else projectPrompt m.exo_prompt_projector m.num_virtual_tokens exo_prompt
  let combine : Tensor3 ℚ :=
    if m.prompt_tuning_type = "brute_concat" then
      TokenEmbedding.forward m.valueConvW (cat2 exoT x)
    else cat1 exoT (TokenEmbedding.forward m.valueConvW x)
  let withPos := addB combine (PositionalEmbedding.forward m.posPe combine)
  match x_mark with
  | none => withPos
  | some xm =>
    let temporal_embedding := m.temporal.forward xm
    let temporal_embedding :=
      if ¬ m.prompt_tuning_type ∈ ["brute_concat"] then
        cat1 (zerosLike exoT) temporal_embedding
      else temporal_embedding
    add3 withPos temporal_embedding

end DataEmbeddingWithExoPromptTuning

namespace DataEmbedding_inverted_WithExoPromptTuning

/-- Module state after construction; `c_in` of this module is the sequence
length, since `forward` permutes time and variate axes.  `token_c_in`
records the input width the constructor gives the value `nn.Linear`. -/
structure Module where
  prompt_tuning_type : String
  num_virtual_tokens : ℕ
  exo_prompt_dim : ℕ
  token_c_in : ℕ
  exo_prompt_projector : PromptProjector
  valueW : List (List ℚ)
  valueB : List ℚ

/-- The constructor (`__init__`): same validation and width logic as the
non-inverted variant, but the value embedding is a plain `nn.Linear`. -/
def init (c_in d_model : ℕ) (embed_type freq : String) (dropout : ℚ)
    (prompt_tuning_type : String)
    (num_virtual_tokens exo_prompt_dim exo_prompt_projector_hidden_size : ℕ)
    (proj : PromptProjector) (W : List (List ℚ)) (bv : List ℚ) : Option Module :=
  if prompt_tuning_type = "two_layer_mlp" ∨ prompt_tuning_type = "brute_concat" then
    some
      { prompt_tuning_type := prompt_tuning_type
        num_virtual_tokens := num_virtual_tokens
        exo_prompt_dim := exo_prompt_dim
        token_c_in :=
          if ¬ prompt_tuning_type ∈ ["brute_concat"] then c_in
          else c_in + exo_prompt_dim
        exo_prompt_projector := proj
        valueW := W
        valueB := bv }
  else none

/-- `forward(x, x_mark, exo_prompt)` of the inverted variant.  As above the
`elif "two_layer_mlp"` branch is modelled as `else`, and `Dropout` is the
identity. -/
def forward (m : Module) (x : Tensor3 ℚ) (x_mark : Option (Tensor3 ℚ))
    (exo_prompt : List (List ℚ)) : Tensor3 ℚ :=
  let x1 := x.map transposeM
  let exoT : Tensor3 ℚ :=
    if m.prompt_tuning_type = "brute_concat" then repeatMid exo_prompt (size1 x1)
    else projectPrompt m.exo_prompt_projector m.num_virtual_tokens exo_prompt
  match x_mark with
  | none =>
    if m.prompt_tuning_type = "brute_concat" then
      mapRows (linear m.valueW m.valueB) (cat2 x1 exoT)
    else cat1 (mapRows (linear m.valueW m.valueB) x1) exoT
  | some xm =>
    let xmi := xm.map transposeM
    if m.prompt_tuning_type = "brute_concat" then
      let xc := cat2 x1 exoT
      let pad_length := size2 xc - size2 xmi
      let xmp := xmi.map (List.map fun row => row ++ List.replicate pad_length 0)
      mapRows (linear m.valueW m.valueB) (cat1 xc xmp)
    else
      cat1 (mapRows (linear m.valueW m.valueB) (cat1 x1 xmi)) exoT

end DataEmbedding_inverted_WithExoPromptTuning

namespace DataEmbedding_inverted

/-- A `DataEmbedding_inverted` module: the constructor builds only the
value `nn.Linear(c_in, d_model)` and a dropout; no temporal or positional
sub-module exists. -/
structure Module where
  valueW : List (List ℚ)
  valueB : List ℚ

/-- The constructor (`__init__`): `embed_type` and `freq` are accepted and
ignored. -/
def init (c_in d_model : ℕ) (embed_type freq : String) (dropout : ℚ)
    (W : List (List ℚ)) (bv : List ℚ) : Module :=
  { valueW := W, valueB := bv }

/-- `forward(x, x_mark)`: permute to `[B, Variate, Time]`; when calendar
features are given they are concatenated as extra variate rows before the
linear projection.  `Dropout` is the identity in evaluation mode. -/
def forward (m : Module) (x : Tensor3 ℚ) (x_mark : Option (Tensor3 ℚ)) :
    Tensor3 ℚ :=
  let x1 := x.map transposeM
  match x_mark with
  | none => mapRows (linear m.valueW m.valueB) x1
  | some xm => mapRows (linear m.valueW m.valueB) (cat1 x1 (xm.map transposeM))

end DataEmbedding_inverted

namespace PatchEmbedding

/-- A `PatchEmbedding` module. -/
structure Module where
  patch_len : ℕ
  stride : ℕ
  padding : ℕ
  valueW : List (List ℚ)
  posPe : List (List ℚ)

/-- The constructor (`__init__`). -/
def init (d_model patch_len stride padding : ℕ) (dropout : ℚ)
    (W peT : List (List ℚ)) : Module :=
  { patch_len := patch_len, stride := stride, padding := padding
    valueW := W, posPe := peT }

/-- `nn.ReplicationPad1d((0, padding))` on one time row: right-pad by
repeating the last element. -/
def replicationPad (row : List ℚ) (padding : ℕ) : List ℚ :=
  row ++ List.replicate padding (row.getLastD 0)

/-- `row.unfold(-1, size, step)`: overlapping windows of length `size`
with stride `step`; there are `(len - size) / step + 1` of them. -/
def unfoldRow (row : List ℚ) (size step : ℕ) : List (List ℚ) :=
  (List.range ((row.length - size) / step + 1)).map fun i =>
    (row.drop (i * step)).take size

/-- `forward(x)` for `x : [B, V, T]`: replication-pad the time axis, unfold
into patches, fold the variate axis into the batch axis
(`torch.reshape` of the first two axes of a contiguous tensor), project
each patch and add the positional embedding; returns the patches and
`n_vars`.  `Dropout` is the identity in evaluation mode. -/
def forward (m : Module) (x : Tensor3 ℚ) : Tensor3 ℚ × ℕ :=
  let n_vars := size1 x
  let xp := x.map (List.map fun row => replicationPad row m.padding)
  let xu := xp.map (List.map fun row => unfoldRow row m.patch_len m.stride)
  let xr := xu.flatten
  let xe := mapRows (linearNoBias m.valueW) xr
  (addB xe (PositionalEmbedding.forward m.posPe xr), n_vars)

theorem replicationPad_length (row : List ℚ) (padding : ℕ) :
    (replicationPad row padding).length = row.length + padding := by
  simp [replicationPad]

theorem unfoldRow_length (row : List ℚ) (size step : ℕ) :
    (unfoldRow row size step).length = (row.length - size) / step + 1 := by
  simp [unfoldRow]

theorem unfoldRow_getD (row : List ℚ) (size step : ℕ) {i : ℕ}
    (hi : i < (row.length - size) / step + 1) :
    (unfoldRow row size step).getD i [] = (row.drop (i * step)).take size := by
  unfold unfoldRow
  rw [getD_eq_get _ _ (show i < ((List.range ((row.length - size) / step + 1)).map
        fun i => (row.drop (i * step)).take size).length by
      rw [List.length_map, List.length_range]; omega)]
  rw [List.getElem_map, List.getElem_range]

theorem unfoldRow_WF {row : List ℚ} {size step : ℕ}
    (hstep : 0 < step) (hsize : size ≤ row.length) :
    WF2 (unfoldRow row size step) ((row.length - size) / step + 1) size := by
  constructor
  · exact unfoldRow_length row size step
  · intro w hw
    simp only [unfoldRow, List.mem_map, List.mem_range] at hw
    obtain ⟨i, hi, rfl⟩ := hw
    rw [List.length_take, List.length_drop]
    have hmul : i * step ≤ row.length - size := by
      calc i * step ≤ (row.length - size) / step * step :=
            Nat.mul_le_mul_right step (by omega)
        _ ≤ row.length - size := Nat.div_mul_le_self _ _
    omega

theorem flatten_length_eq {β : Type} {xs : List (List β)} {B V : ℕ}
    (hlen : xs.length = B) (hV : ∀ u ∈ xs, u.length = V) :
    xs.flatten.length = B * V := by
  rw [List.length_flatten]
  have : xs.map List.length = List.replicate B V := by
    rw [List.eq_replicate_iff]
    refine ⟨by rw [List.length_map, hlen], ?_⟩
    intro y hy
    simp only [List.mem_map] at hy
    obtain ⟨u, hu, rfl⟩ := hy
    exact hV u hu
  rw [this, List.sum_replicate, smul_eq_mul]

theorem flatten_getD {β : Type} (xs : List (List β)) (d : β) {V b v : ℕ}
    (hV : ∀ u ∈ xs, u.length = V) (hb : b < xs.length) (hv : v < V) :
    xs.flatten.getD (b * V + v) d = (xs.getD b []).getD v d := by
  induction xs generalizing b with
  | nil => simp at hb
  | cons u t ih =>
    have hu : u.length = V := hV u (by simp)
    cases b with
    | zero =>
      rw [List.flatten_cons, getD_append, if_pos (by omega)]
      simp
    | succ b' =>
      rw [List.flatten_cons, getD_append,
          if_neg (by rw [hu, Nat.succ_mul]; omega)]
      have harith : (b' + 1) * V + v - u.length = b' * V + v := by
        rw [hu, Nat.succ_mul]; omega
      rw [harith]
      rw [ih (fun u' hu' => hV u' (by simp [hu'])) (by simpa using hb)]
      simp

end PatchEmbedding

section TemporalLemmas

theorem WF3_of_getD {α : Type} {t : Tensor3 α} {B r c : ℕ}
    (h1 : t.length = B)
    (h2 : ∀ i, i < B → (t.getD i []).length = r)
    (h3 : ∀ i j, i < B → j < r → ((t.getD i []).getD j []).length = c) :
    WF3 t B r c := by
  refine ⟨h1, fun m hm => ?_⟩
  rw [List.mem_iff_getElem] at hm
  obtain ⟨i, hi, rfl⟩ := hm
  have hiB : i < B := by omega
  rw [← getD_eq_get t [] hi]
  constructor
  · exact h2 i hiB
  · intro row hrow
    rw [List.mem_iff_getElem] at hrow
    obtain ⟨j, hj, rfl⟩ := hrow
    have hjr : j < r := by rw [h2 i hiB] at hj; exact hj
    rw [← getD_eq_get _ [] hj]
    exact h3 i j hiB hjr

theorem mapRows_row {α β : Type} (f : List α → List β) {t : Tensor3 α} {b j : ℕ}
    (hb : b < t.length) (hj : j < (t.getD b []).length) :
    ((mapRows f t).getD b []).getD j [] = f ((t.getD b []).getD j []) := by
  unfold mapRows
  rw [getD_eq_get _ _ (show b < (t.map (List.map f)).length by
        rw [List.length_map]; omega)]
  rw [List.getElem_map]
  rw [getD_eq_get t [] hb] at hj ⊢
  rw [getD_eq_get _ _ (show j < (List.map f t[b]).length by
        rw [List.length_map]; omega)]
  rw [List.getElem_map, getD_eq_get _ _ hj]

theorem mapRows_batch_length {α β : Type} (f : List α → List β) {t : Tensor3 α}
    {i : ℕ} (hi : i < t.length) :
    ((mapRows f t).getD i []).length = (t.getD i []).length := by
  unfold mapRows
  rw [getD_eq_get _ _ (show i < (t.map (List.map f)).length by
        rw [List.length_map]; omega)]
  rw [List.getElem_map, List.length_map, getD_eq_get t [] hi]

theorem mapRows_length {α β : Type} (f : List α → List β) (t : Tensor3 α) :
    (mapRows f t).length = t.length := by
  unfold mapRows; rw [List.length_map]

theorem longCast_zero : longCast 0 = 0 := rfl

theorem map_getD_longCast (row : List ℚ) (k : ℕ) :
    (row.map longCast).getD k 0 = longCast (row.getD k 0) := by
  by_cases h : k < row.length
  · rw [getD_eq_get _ _ (show k < (row.map longCast).length by
        rw [List.length_map]; omega)]
    rw [List.getElem_map, getD_eq_get _ _ h]
  · rw [getD_eq_default _ _ (by rw [List.length_map]; omega),
        getD_eq_default _ _ (by omega), longCast_zero]

theorem longCast3_eq_mapRows (x : Tensor3 ℚ) :
    longCast3 x = mapRows (List.map longCast) x := rfl

theorem longCast3_row {x : Tensor3 ℚ} {b t : ℕ}
    (hb : b < x.length) (ht : t < (x.getD b []).length) :
    ((longCast3 x).getD b []).getD t [] = ((x.getD b []).getD t []).map longCast := by
  rw [longCast3_eq_mapRows]
  exact mapRows_row (List.map longCast) hb ht

theorem lookupCol_eq_mapRows (tbl : List (List ℚ)) (xl : List (List (List ℤ)))
    (k : ℕ) :
    TemporalEmbedding.lookupCol tbl xl k =
      mapRows (fun row => TemporalEmbedding.lookup tbl (row.getD k 0)) xl := rfl

theorem lookupCol_row {tbl : List (List ℚ)} {x : Tensor3 ℚ} {k b t : ℕ}
    (hb : b < x.length) (ht : t < (x.getD b []).length) :
    ((TemporalEmbedding.lookupCol tbl (longCast3 x) k).getD b []).getD t [] =
      TemporalEmbedding.lookup tbl (longCast (tget x b t k)) := by
  have h1 : b < (longCast3 x).length := by
    rw [longCast3_eq_mapRows, mapRows_length]; omega
  have h2 : t < ((longCast3 x).getD b []).length := by
    rw [longCast3_eq_mapRows, mapRows_batch_length _ hb]; omega
  rw [lookupCol_eq_mapRows]
  rw [mapRows_row _ h1 h2, longCast3_row hb ht, map_getD_longCast]
  rfl

theorem lookupCol_batch_length {tbl : List (List ℚ)} {x : Tensor3 ℚ} {k b : ℕ}
    (hb : b < x.length) :
    ((TemporalEmbedding.lookupCol tbl (longCast3 x) k).getD b []).length =
      (x.getD b []).length := by
  have h1 : b < (longCast3 x).length := by
    rw [longCast3_eq_mapRows, mapRows_length]; omega
  rw [lookupCol_eq_mapRows, mapRows_batch_length _ h1,
      longCast3_eq_mapRows, mapRows_batch_length _ hb]

theorem WF3_lookupCol {tbl : List (List ℚ)} {d : ℕ} {x : Tensor3 ℚ}
    {B L F k : ℕ} (hx : WF3 x B L F)
    (htbl : ∀ row ∈ tbl, row.length = d)
    (hidx : ∀ b < B, ∀ t < L, (longCast (tget x b t k)).toNat < tbl.length) :
    WF3 (TemporalEmbedding.lookupCol tbl (longCast3 x) k) B L d := by
  apply WF3_of_getD
  · rw [lookupCol_eq_mapRows, mapRows_length, longCast3_eq_mapRows,
        mapRows_length, hx.1]
  · intro i hi
    rw [lookupCol_batch_length (by rw [hx.1]; omega), (hx.batch hi).1]
  · intro i j hi hj
    rw [lookupCol_row (by rw [hx.1]; omega) (by rw [(hx.batch hi).1]; omega)]
    unfold TemporalEmbedding.lookup
    have hlt := hidx i hi j hj
    rw [getD_eq_get _ _ hlt]
    exact htbl _ (List.getElem_mem hlt)

theorem tget_lookupCol {tbl : List (List ℚ)} {x : Tensor3 ℚ} {k b t : ℕ}
    (hb : b < x.length) (ht : t < (x.getD b []).length) (c : ℕ) :
    tget (TemporalEmbedding.lookupCol tbl (longCast3 x) k) b t c =
      mget tbl (longCast (tget x b t k)).toNat c := by
  unfold tget mget
  rw [lookupCol_row hb ht]
  rfl

theorem ext3 {α : Type} {a b : Tensor3 α} (hlen : a.length = b.length)
    (hrow : ∀ i, i < a.length → (a.getD i []).length = (b.getD i []).length)
    (hval : ∀ i j, i < a.length → j < (a.getD i []).length →
      (a.getD i []).getD j [] = (b.getD i []).getD j []) : a = b := by
  apply List.ext_getElem hlen
  intro i h1 h2
  have e1 : a.getD i [] = a[i] := getD_eq_get a [] h1
  have e2 : b.getD i [] = b[i] := getD_eq_get b [] h2
  apply List.ext_getElem
  · rw [← e1, ← e2]; exact hrow i h1
  · intro j hj1 hj2
    have := hval i j h1 (by rw [e1]; omega)
    rw [e1, e2] at this
    rw [getD_eq_get _ [] hj1, getD_eq_get _ [] hj2] at this
    exact this

theorem lookupCol_congr {tbl : List (List ℚ)} {x y : Tensor3 ℚ} {k : ℕ}
    (hk : k < 5) (hlen : x.length = y.length)
    (hrows : ∀ b < x.length, (x.getD b []).length = (y.getD b []).length)
    (hagree : ∀ b < x.length, ∀ t < (x.getD b []).length, ∀ k' < 5,
      longCast (tget x b t k') = longCast (tget y b t k')) :
    TemporalEmbedding.lookupCol tbl (longCast3 x) k =
      TemporalEmbedding.lookupCol tbl (longCast3 y) k := by
  have lenx : (TemporalEmbedding.lookupCol tbl (longCast3 x) k).length = x.length := by
    rw [lookupCol_eq_mapRows, mapRows_length, longCast3_eq_mapRows, mapRows_length]
  have leny : (TemporalEmbedding.lookupCol tbl (longCast3 y) k).length = y.length := by
    rw [lookupCol_eq_mapRows, mapRows_length, longCast3_eq_mapRows, mapRows_length]
  apply ext3
  · rw [lenx, leny, hlen]
  · intro i hi
    rw [lenx] at hi
    rw [lookupCol_batch_length hi, lookupCol_batch_length (by omega : i < y.length),
        hrows i hi]
  · intro i j hi hj
    rw [lenx] at hi
    rw [lookupCol_batch_length hi] at hj
    rw [lookupCol_row hi hj,
        lookupCol_row (by omega : i < y.length) (by rw [← hrows i hi]; omega)]
    rw [hagree i hi j hj k hk]

theorem map_getD_batch {α β : Type} (f : α → β) (l : List α) (d : α) (d' : β)
    {i : ℕ} (hi : i < l.length) : (l.map f).getD i d' = f (l.getD i d) := by
  rw [getD_eq_get _ _ (by rw [List.length_map]; omega), List.getElem_map,
      getD_eq_get l d hi]

theorem WF3_repeatMid {α : Type} {e : List (List α)} (l : ℕ) {B P : ℕ}
    (he : WF2 e B P) : WF3 (repeatMid e l) B l P := by
  constructor
  · simp [repeatMid, he.1]
  · intro m hm
    simp only [repeatMid, List.mem_map] at hm
    obtain ⟨v, hv, rfl⟩ := hm
    constructor
    · exact List.length_replicate l v
    · intro row hrow
      rw [List.eq_of_mem_replicate hrow]
      exact he.2 _ hv

theorem tget_repeatMid {α : Type} [Zero α] {e : List (List α)} {l B P : ℕ}
    (he : WF2 e B P) {b s : ℕ} (hb : b < B) (hs : s < l) (k : ℕ) :
    tget (repeatMid e l) b s k = mget e b k := by
  have hbe : b < e.length := by rw [he.1]; omega
  unfold repeatMid tget
  rw [map_getD_batch _ _ [] [] hbe]
  unfold mget
  rw [getD_eq_get _ _ (by rw [List.length_replicate]; omega),
      List.getElem_replicate]

theorem rearrangeChunks_length {α : Type} (v : List α) (l : ℕ) :
    (rearrangeChunks v l).length = l := by
  simp [rearrangeChunks]

theorem rearrangeChunks_WF {α : Type} {v : List α} {l d : ℕ}
    (hv : v.length = l * d) (hl : 0 < l) : WF2 (rearrangeChunks v l) l d := by
  have hd : v.length / l = d := by rw [hv]; exact Nat.mul_div_cancel_left d hl
  constructor
  · exact rearrangeChunks_length v l
  · intro row hrow
    simp only [rearrangeChunks, List.mem_map, List.mem_range] at hrow
    obtain ⟨i, hi, rfl⟩ := hrow
    rw [List.length_take, List.length_drop, hd]
    have : (i + 1) * d ≤ l * d := Nat.mul_le_mul_right d hi
    rw [Nat.succ_mul] at this
    omega

theorem rearrangeChunks_getD {α : Type} (v : List α) {l i : ℕ} (hi : i < l) :
    (rearrangeChunks v l).getD i [] =
      (v.drop (i * (v.length / l))).take (v.length / l) := by
  unfold rearrangeChunks
  rw [getD_eq_get _ _ (show i < ((List.range l).map
        fun i => (v.drop (i * (v.length / l))).take (v.length / l)).length by
      rw [List.length_map, List.length_range]; omega)]
  rw [List.getElem_map, List.getElem_range]

theorem PromptProjector.forward_length (p : PromptProjector) (v : List ℚ) :
    (p.forward v).length = p.W2.length := by
  unfold PromptProjector.forward
  exact linear_length _ _

theorem projectPrompt_length (p : PromptProjector) (nvt : ℕ)
    (exo : List (List ℚ)) : (projectPrompt p nvt exo).length = exo.length := by
  simp [projectPrompt]

theorem WF3_projectPrompt {p : PromptProjector} {nvt D : ℕ}
    {exo : List (List ℚ)} {B : ℕ} (hexo : exo.length = B)
    (hW2 : p.W2.length = nvt * D) (hnvt : 0 < nvt) :
    WF3 (projectPrompt p nvt exo) B nvt D := by
  constructor
  · rw [projectPrompt_length, hexo]
  · intro m hm
    simp only [projectPrompt, List.mem_map] at hm
    obtain ⟨v, hv, rfl⟩ := hm
    exact rearrangeChunks_WF (by rw [PromptProjector.forward_length, hW2]) hnvt

theorem WF3_permute021 {α : Type} [Zero α] {x : Tensor3 α} {B L V : ℕ}
    (hx : WF3 x B L V) (hL : 0 < L) : WF3 (x.map transposeM) B V L := by
  constructor
  · simp [hx.1]
  · intro m hm
    simp only [List.mem_map] at hm
    obtain ⟨bm, hbm, rfl⟩ := hm
    exact WF2_transposeM (hx.2 _ hbm) hL

theorem tget_permute021 {α : Type} [Zero α] {x : Tensor3 α} {B L V : ℕ}
    (hx : WF3 x B L V) (hL : 0 < L) {b v t : ℕ}
    (hb : b < B) (hv : v < V) (ht : t < L) :
    tget (x.map transposeM) b v t = tget x b t v := by
  have hbx : b < x.length := by rw [hx.1]; omega
  unfold tget
  rw [map_getD_batch _ _ [] [] hbx]
  exact mget_transposeM (hx.batch hb) hL hv ht

theorem ext3v {α : Type} [Zero α] {a b : Tensor3 α}
    (hlen : a.length = b.length)
    (h2 : ∀ i, i < a.length → (a.getD i []).length = (b.getD i []).length)
    (h3 : ∀ i j, i < a.length → j < (a.getD i []).length →
      ((a.getD i []).getD j []).length = ((b.getD i []).getD j []).length)
    (hv : ∀ i j k, i < a.length → j < (a.getD i []).length →
      k < ((a.getD i []).getD j []).length → tget a i j k = tget b i j k) :
    a = b := by
  apply ext3 hlen h2
  intro i j hi hj
  apply List.ext_getElem (h3 i j hi hj)
  intro k hk1 hk2
  have e := hv i j k hi hj hk1
  unfold tget mget vget at e
  rw [getD_eq_get _ _ hk1, getD_eq_get _ _ hk2] at e
  exact e

theorem cat2_repeat_eq_mk3 {exo : List (List ℚ)} {x : Tensor3 ℚ}
    {B L C P : ℕ} (hx : WF3 x B L C) (hexo : WF2 exo B P) :
    cat2 (repeatMid exo L) x =
      mk3 B L (P + C)
        (fun b l k => if k < P then mget exo b k else tget x b l (k - P)) := by
  have hrep : WF3 (repeatMid exo L) B L P := WF3_repeatMid L hexo
  have hcat : WF3 (cat2 (repeatMid exo L) x) B L (P + C) := WF3_cat2 hrep hx
  have hmk : WF3 (mk3 B L (P + C)
      (fun b l k => if k < P then mget exo b k else tget x b l (k - P)))
      B L (P + C) := mk3_WF _
  apply ext3v
  · rw [hcat.1, hmk.1]
  · intro i hi
    rw [hcat.1] at hi
    rw [(hcat.batch hi).1, (hmk.batch hi).1]
  · intro i j hi hj
    rw [hcat.1] at hi
    rw [(hcat.batch hi).1] at hj
    rw [hcat.row_length hi hj, hmk.row_length hi hj]
  · intro i j k hi hj hk
    rw [hcat.1] at hi
    rw [(hcat.batch hi).1] at hj
    rw [hcat.row_length hi hj] at hk
    rw [tget_cat2 hrep hx hi hj k, tget_mk3 _ hi hj hk]
    by_cases hkP : k < P
    · rw [if_pos hkP, if_pos hkP, tget_repeatMid hexo hi hj k]
    · rw [if_neg hkP, if_neg hkP]

theorem cat2_perm_repeat_eq_mk3 {exo : List (List ℚ)} {x : Tensor3 ℚ}
    {B L V P : ℕ} (hx : WF3 x B L V) (hexo : WF2 exo B P) (hL : 0 < L) :
    cat2 (x.map transposeM) (repeatMid exo V) =
      mk3 B V (L + P)
        (fun b v k => if k < L then tget x b k v else mget exo b (k - L)) := by
  have hperm : WF3 (x.map transposeM) B V L := WF3_permute021 hx hL
  have hrep : WF3 (repeatMid exo V) B V P := WF3_repeatMid V hexo
  have hcat : WF3 (cat2 (x.map transposeM) (repeatMid exo V)) B V (L + P) :=
    WF3_cat2 hperm hrep
  have hmk : WF3 (mk3 B V (L + P)
      (fun b v k => if k < L then tget x b k v else mget exo b (k - L)))
      B V (L + P) := mk3_WF _
  apply ext3v
  · rw [hcat.1, hmk.1]
  · intro i hi
    rw [hcat.1] at hi
    rw [(hcat.batch hi).1, (hmk.batch hi).1]
  · intro i j hi hj
    rw [hcat.1] at hi
    rw [(hcat.batch hi).1] at hj
    rw [hcat.row_length hi hj, hmk.row_length hi hj]
  · intro i j k hi hj hk
    rw [hcat.1] at hi
    rw [(hcat.batch hi).1] at hj
    rw [hcat.row_length hi hj] at hk
    rw [tget_cat2 hperm hrep hi hj k, tget_mk3 _ hi hj hk]
    by_cases hkL : k < L
    · rw [if_pos hkL, if_pos hkL, tget_permute021 hx hL hi hj hkL]
    · rw [if_neg hkL, if_neg hkL, tget_repeatMid hexo hi hj (k - L)]

theorem lookup_cons_isSome {α β : Type} [BEq α] (a k : α) (v : β)
    (l : List (α × β)) :
    (List.lookup a ((k, v) :: l)).isSome =
      ((a == k) || (List.lookup a l).isSome) := by
  simp only [List.lookup]
  cases a == k <;> simp

theorem freqMap_isSome (freq : String) :
    (TimeFeatureEmbedding.freqMap freq).isSome ↔
      freq ∈ ["h", "t", "s", "m", "a", "w", "d", "b"] := by
  unfold TimeFeatureEmbedding.freqMap
  simp only [lookup_cons_isSome, List.lookup_nil, Option.isSome_none,
    Bool.or_false, Bool.or_eq_true, beq_iff_eq]
  simp [List.mem_cons]

end TemporalLemmas

section Claims

/-- C3: for every sequence length `L ≤ max_len` and every input `x` whose
size along dimension 1 is `L`, `PositionalEmbedding.forward` returns a
tensor of shape `[1, L, d_model]` in which, for every position `p < L` and
every channel index `c < d_model`, even channel `2i` holds
`sin(p / 10000^(2i/d_model))` and odd channel `2i + 1` holds
`cos(p / 10000^(2i/d_model))`.  Stated for even `d_model`, the only case
in which the constructor's slice assignments are shape-compatible. -/
theorem C3_positionalEmbedding_shape_and_values
    (d_model max_len B L C : ℕ) (x : Tensor3 ℝ)
    (hd : d_model % 2 = 0)
    (hx : WF3 x B L C) (hB : 0 < B) (hL : L ≤ max_len)
    (p c : ℕ) (hp : p < L) (hc : c < d_model) :
    WF3 (PositionalEmbedding.forward (PositionalEmbedding.pe d_model max_len) x)
      1 L d_model ∧
    tget (PositionalEmbedding.forward (PositionalEmbedding.pe d_model max_len) x)
      0 p c =
      (if c % 2 = 0
       then Real.sin ((p : ℝ) /
         (10000 : ℝ) ^ (((2 * (c / 2) : ℕ) : ℝ) / (d_model : ℝ)))
       else Real.cos ((p : ℝ) /
         (10000 : ℝ) ^ (((2 * (c / 2) : ℕ) : ℝ) / (d_model : ℝ)))) := by
  have hsz : size1 x = L := hx.size1_eq hB
  have hpe := PositionalEmbedding.pe_WF d_model max_len
  constructor
  · constructor
    · simp [PositionalEmbedding.forward]
    · intro m hm
      simp only [PositionalEmbedding.forward, hsz, List.mem_singleton] at hm
      subst hm
      exact PositionalEmbedding.WF2_take hpe hL
  · unfold PositionalEmbedding.forward tget
    rw [hsz]
    rw [getD_eq_get _ _ (show 0 < [(PositionalEmbedding.pe d_model max_len).take L].length
          by simp)]
    show mget ((PositionalEmbedding.pe d_model max_len).take L) p c = _
    unfold mget
    rw [PositionalEmbedding.getD_take _ _ hp (by rw [hpe.1]; omega)]
    show mget (PositionalEmbedding.pe d_model max_len) p c = _
    rw [PositionalEmbedding.mget_pe (by omega) hc]
    by_cases h2 : c % 2 = 0 <;>
      simp [h2, PositionalEmbedding.divTerm_eq, ← div_eq_mul_inv]

/-- Witness for C3 at a concrete instance (`d_model = 2`,
`max_len = 5000`, `L = 1`, odd channel). -/
theorem C3_witness :
    WF3 (PositionalEmbedding.forward (PositionalEmbedding.pe 2 5000) [[[0]]]) 1 1 2 ∧
    tget (PositionalEmbedding.forward (PositionalEmbedding.pe 2 5000) [[[0]]]) 0 0 1 =
      (if 1 % 2 = 0
       then Real.sin ((0 : ℝ) / (10000 : ℝ) ^ (((2 * (1 / 2) : ℕ) : ℝ) / (2 : ℝ)))
       else Real.cos ((0 : ℝ) / (10000 : ℝ) ^ (((2 * (1 / 2) : ℕ) : ℝ) / (2 : ℝ)))) := by
  have h := C3_positionalEmbedding_shape_and_values 2 5000 1 1 1 [[[0]]]
    (by norm_num) (by simp [WF3, WF2]) (by norm_num) (by norm_num) 0 1
    (by norm_num) (by norm_num)
  exact_mod_cast h

/-- C7: for every input of shape `[B, L, c_in]` (with nondegenerate
`L`, `c_in`, `d_model`, since the host framework rejects empty circular
padding), `TokenEmbedding.forward` returns a tensor of shape
`[B, L, d_model]`: the width-3 circular convolution with no bias preserves
the sequence length. -/
theorem C7_tokenEmbedding_preserves_length
    {w x : Tensor3 ℚ} {B L C D : ℕ}
    (hw : WF3 w D C 3) (hx : WF3 x B L C)
    (hL : 0 < L) (hC : 0 < C) (hD : 0 < D) :
    WF3 (TokenEmbedding.forward w x) B L D :=
  TokenEmbedding.forward_WF hw hx hL hC hD

/-- Witness for C7: a concrete width-1-channel convolution on a length-3
sequence. -/
theorem C7_witness :
    WF3 (TokenEmbedding.forward [[[1, 0, 0]]] [[[1], [2], [3]]]) 1 3 1 :=
  C7_tokenEmbedding_preserves_length (C := 1) (by decide) (by decide)
    (by decide) (by decide) (by decide)

/-- C5: for a calendar tensor whose truncated fields are valid indices,
`TemporalEmbedding.forward` returns exactly the elementwise sum of the
month, day, weekday and hour lookups (read from columns 0, 1, 2, 3), plus
the minute lookup (column 4) if and only if the module was constructed
with `freq = "t"`; an absent minute embedding contributes zero. -/
theorem C5_temporalEmbedding_sum_of_lookups
    (embed_type freq : String) (mi ho we da mo : List (List ℚ))
    (x : Tensor3 ℚ) (B L F d : ℕ) (hx : WF3 x B L F)
    (hmi : WF2 mi 4 d) (hho : WF2 ho 24 d) (hwe : WF2 we 7 d)
    (hda : WF2 da 32 d) (hmo : WF2 mo 13 d)
    (hr0 : ∀ b < B, ∀ t < L, (longCast (tget x b t 0)).toNat < 13)
    (hr1 : ∀ b < B, ∀ t < L, (longCast (tget x b t 1)).toNat < 32)
    (hr2 : ∀ b < B, ∀ t < L, (longCast (tget x b t 2)).toNat < 7)
    (hr3 : ∀ b < B, ∀ t < L, (longCast (tget x b t 3)).toNat < 24)
    (hr4 : freq = "t" → ∀ b < B, ∀ t < L, (longCast (tget x b t 4)).toNat < 4)
    {b t c : ℕ} (hb : b < B) (ht : t < L) (hc : c < d) :
    tget (TemporalEmbedding.forward
        (TemporalEmbedding.init embed_type freq mi ho we da mo) x) b t c =
      mget mo (longCast (tget x b t 0)).toNat c
      + mget da (longCast (tget x b t 1)).toNat c
      + mget we (longCast (tget x b t 2)).toNat c
      + mget ho (longCast (tget x b t 3)).toNat c
      + (if freq = "t" then mget mi (longCast (tget x b t 4)).toNat c else 0) := by
  have hbx : b < x.length := by rw [hx.1]; omega
  have htx : t < (x.getD b []).length := by rw [(hx.batch hb).1]; omega
  have Wmo : WF3 (TemporalEmbedding.lookupCol mo (longCast3 x) 0) B L d :=
    WF3_lookupCol hx hmo.2
      (fun b' hb' t' ht' => by rw [hmo.1]; exact hr0 b' hb' t' ht')
  have Wda : WF3 (TemporalEmbedding.lookupCol da (longCast3 x) 1) B L d :=
    WF3_lookupCol hx hda.2
      (fun b' hb' t' ht' => by rw [hda.1]; exact hr1 b' hb' t' ht')
  have Wwe : WF3 (TemporalEmbedding.lookupCol we (longCast3 x) 2) B L d :=
    WF3_lookupCol hx hwe.2
      (fun b' hb' t' ht' => by rw [hwe.1]; exact hr2 b' hb' t' ht')
  have Who : WF3 (TemporalEmbedding.lookupCol ho (longCast3 x) 3) B L d :=
    WF3_lookupCol hx hho.2
      (fun b' hb' t' ht' => by rw [hho.1]; exact hr3 b' hb' t' ht')
  by_cases hf : freq = "t"
  · have Wmi : WF3 (TemporalEmbedding.lookupCol mi (longCast3 x) 4) B L d :=
      WF3_lookupCol hx hmi.2
        (fun b' hb' t' ht' => by rw [hmi.1]; exact hr4 hf b' hb' t' ht')
    simp only [TemporalEmbedding.forward, TemporalEmbedding.init, hf,
      if_true, reduceIte]
    rw [tget_add3 (WF3_add3 (WF3_add3 (WF3_add3 Who Wwe) Wda) Wmo) Wmi hb ht hc]
    rw [tget_add3 (WF3_add3 (WF3_add3 Who Wwe) Wda) Wmo hb ht hc]
    rw [tget_add3 (WF3_add3 Who Wwe) Wda hb ht hc]
    rw [tget_add3 Who Wwe hb ht hc]
    rw [tget_lookupCol hbx htx, tget_lookupCol hbx htx, tget_lookupCol hbx htx,
        tget_lookupCol hbx htx, tget_lookupCol hbx htx]
    ring
  · simp only [TemporalEmbedding.forward, TemporalEmbedding.init, hf,
      if_false, reduceIte]
    rw [tget_add3 (WF3_add3 (WF3_add3 Who Wwe) Wda) Wmo hb ht hc]
    rw [tget_add3 (WF3_add3 Who Wwe) Wda hb ht hc]
    rw [tget_add3 Who Wwe hb ht hc]
    rw [tget_lookupCol hbx htx, tget_lookupCol hbx htx, tget_lookupCol hbx htx,
        tget_lookupCol hbx htx]
    ring

/-- Witness for C5 at a concrete sub-hourly instance: a single time step
with month 1, day 2, weekday 3, hour 4 and fractional minute field 1.5
(truncated to 1). -/
theorem C5_witness :
    tget (TemporalEmbedding.forward
        (TemporalEmbedding.init "fixed" "t" [[10], [20], [30], [40]]
          (List.replicate 24 [3]) (List.replicate 7 [2])
          (List.replicate 32 [1]) (List.replicate 13 [5]))
        [[[1, 2, 3, 4, Rat.divInt 3 2]]]) 0 0 0 =
      mget (List.replicate 13 [5])
        (longCast (tget [[[1, 2, 3, 4, Rat.divInt 3 2]]] 0 0 0)).toNat 0
      + mget (List.replicate 32 [1])
        (longCast (tget [[[1, 2, 3, 4, Rat.divInt 3 2]]] 0 0 1)).toNat 0
      + mget (List.replicate 7 [2])
        (longCast (tget [[[1, 2, 3, 4, Rat.divInt 3 2]]] 0 0 2)).toNat 0
      + mget (List.replicate 24 [3])
        (longCast (tget [[[1, 2, 3, 4, Rat.divInt 3 2]]] 0 0 3)).toNat 0
      + (if "t" = "t" then
          mget [[10], [20], [30], [40]]
            (longCast (tget [[[1, 2, 3, 4, Rat.divInt 3 2]]] 0 0 4)).toNat 0
         else 0) :=
  C5_temporalEmbedding_sum_of_lookups "fixed" "t" _ _ _ _ _ _ 1 1 5 1
    (by decide) (by decide) (by decide) (by decide) (by decide) (by decide)
    (by decide) (by decide) (by decide) (by decide) (by decide)
    (by decide) (by decide) (by decide)

/-- C8: `TemporalEmbedding.forward` first truncates the calendar tensor
with a long cast and reads only columns 0..4; two calendar tensors of the
same shape that agree on those columns after truncation produce equal
outputs, for every module. -/
theorem C8_temporal_depends_only_on_truncated_columns
    (m : TemporalEmbedding.Module) (x y : Tensor3 ℚ)
    (hlen : x.length = y.length)
    (hrows : ∀ b < x.length, (x.getD b []).length = (y.getD b []).length)
    (hagree : ∀ b < x.length, ∀ t < (x.getD b []).length, ∀ k < 5,
      longCast (tget x b t k) = longCast (tget y b t k)) :
    TemporalEmbedding.forward m x = TemporalEmbedding.forward m y := by
  unfold TemporalEmbedding.forward
  rcases hmin : m.minute_embed with _ | tbl
  all_goals simp only [hmin]
  · rw [lookupCol_congr (k := 0) (by omega) hlen hrows hagree,
        lookupCol_congr (k := 1) (by omega) hlen hrows hagree,
        lookupCol_congr (k := 2) (by omega) hlen hrows hagree,
        lookupCol_congr (k := 3) (by omega) hlen hrows hagree]
  · rw [lookupCol_congr (k := 0) (by omega) hlen hrows hagree,
        lookupCol_congr (k := 1) (by omega) hlen hrows hagree,
        lookupCol_congr (k := 2) (by omega) hlen hrows hagree,
        lookupCol_congr (k := 3) (by omega) hlen hrows hagree,
        lookupCol_congr (k := 4) (by omega) hlen hrows hagree]

/-- Witness for C8: two one-step calendar tensors that differ in the
fractional parts of their fields (1.5 vs 1.25, columns beyond 4
different) produce equal outputs. -/
theorem C8_witness :
    TemporalEmbedding.forward
      (TemporalEmbedding.Module.mk (some [[10], [20], [30], [40]])
        (List.replicate 24 [3]) (List.replicate 7 [2])
        (List.replicate 32 [1]) (List.replicate 13 [5]))
      [[[1, 2, 3, 4, Rat.divInt 3 2, 77]]] =
    TemporalEmbedding.forward
      (TemporalEmbedding.Module.mk (some [[10], [20], [30], [40]])
        (List.replicate 24 [3]) (List.replicate 7 [2])
        (List.replicate 32 [1]) (List.replicate 13 [5]))
      [[[1, 2, 3, 4, Rat.divInt 5 4, 99]]] :=
  C8_temporal_depends_only_on_truncated_columns _ _ _
    (by decide) (by decide) (by decide)

/-- C6: `TimeFeatureEmbedding` construction succeeds exactly for the
frequency codes `h, t, s, m, a, w, d, b` (anything else raises a
`KeyError` at construction), and the two exo-prompt-tuning embeddings'
construction succeeds exactly for `prompt_tuning_type` in
`two_layer_mlp, brute_concat` (anything else raises a `ValueError` at
construction). -/
theorem C6_construction_validation :
    (∀ (embed_type freq : String) (W : List (List ℚ)),
      (TimeFeatureEmbedding.init embed_type freq W).isSome ↔
        freq ∈ ["h", "t", "s", "m", "a", "w", "d", "b"]) ∧
    (∀ (pt : String) (c d nvt pdim hidden : ℕ) (drop : ℚ)
        (proj : PromptProjector) (convW : Tensor3 ℚ)
        (peT mi ho we da mo WT : List (List ℚ)),
      (DataEmbeddingWithExoPromptTuning.init c d "fixed" "h" drop pt
          nvt pdim hidden proj convW peT mi ho we da mo WT).isSome ↔
        pt ∈ ["two_layer_mlp", "brute_concat"]) ∧
    (∀ (pt : String) (c d nvt pdim hidden : ℕ) (drop : ℚ)
        (proj : PromptProjector) (W : List (List ℚ)) (bv : List ℚ),
      (DataEmbedding_inverted_WithExoPromptTuning.init c d "fixed" "h" drop pt
          nvt pdim hidden proj W bv).isSome ↔
        pt ∈ ["two_layer_mlp", "brute_concat"]) := by
  refine ⟨?_, ?_, ?_⟩
  · intro embed_type freq W
    unfold TimeFeatureEmbedding.init
    rw [← freqMap_isSome freq]
    cases TimeFeatureEmbedding.freqMap freq <;> simp
  · intro pt c d nvt pdim hidden drop proj convW peT mi ho we da mo WT
    by_cases hpt : pt = "two_layer_mlp" ∨ pt = "brute_concat"
    · rcases hpt with h | h <;>
        simp [DataEmbeddingWithExoPromptTuning.init, initTemporalKind, h]
    · simp only [DataEmbeddingWithExoPromptTuning.init, if_neg hpt]
      simp [List.mem_cons]
      tauto
  · intro pt c d nvt pdim hidden drop proj W bv
    by_cases hpt : pt = "two_layer_mlp" ∨ pt = "brute_concat"
    · rcases hpt with h | h <;>
        simp [DataEmbedding_inverted_WithExoPromptTuning.init, h]
    · simp only [DataEmbedding_inverted_WithExoPromptTuning.init, if_neg hpt]
      simp [List.mem_cons]
      tauto

/-- C10: the output of `DataEmbedding_inverted.forward` is independent of
the `embed_type` and `freq` constructor arguments: two instances sharing
`c_in`, `d_model`, `dropout` and the value-embedding parameters produce
equal outputs on every input; the constructor builds no temporal or
positional sub-module from those arguments. -/
theorem C10_dataEmbedding_inverted_ignores_embed_type_freq :
    ∀ (c d : ℕ) (et1 f1 et2 f2 : String) (drop : ℚ)
      (W : List (List ℚ)) (bv : List ℚ)
      (x : Tensor3 ℚ) (xm : Option (Tensor3 ℚ)),
      DataEmbedding_inverted.forward
          (DataEmbedding_inverted.init c d et1 f1 drop W bv) x xm =
        DataEmbedding_inverted.forward
          (DataEmbedding_inverted.init c d et2 f2 drop W bv) x xm :=
  fun _ _ _ _ _ _ _ _ _ _ _ => rfl

/-- C4: on a `[B, V, T]` input, `PatchEmbedding.forward` right-pads the
time axis by replication, slices it into overlapping windows of length
`patch_len` with stride `stride`, folds the variate axis into the batch
axis, projects each patch with the shared linear map and adds the
positional embedding sliced to the patch count: the first output is
well-formed of shape `[(B·V), n_patches, d_model]`, its entries are the
linear projection of the corresponding padded window plus the positional
entry, and the second output equals `V`. -/
theorem C4_patchEmbedding_shapes_and_patches
    (d_model patch_len stride padding : ℕ) (drop : ℚ)
    (W peT : List (List ℚ)) (x : Tensor3 ℚ) (B V T D ML : ℕ)
    (hx : WF3 x B V T) (hB : 0 < B) (hV : 0 < V)
    (hstride : 0 < stride) (hsize : patch_len ≤ T + padding)
    (hW : WF2 W D patch_len) (hpe : WF2 peT ML D)
    (hML : (T + padding - patch_len) / stride + 1 ≤ ML)
    (b v i j : ℕ) (hb : b < B) (hv : v < V)
    (hi : i < (T + padding - patch_len) / stride + 1) (hj : j < D) :
    (PatchEmbedding.forward
        (PatchEmbedding.init d_model patch_len stride padding drop W peT) x).2
      = V ∧
    WF3 (PatchEmbedding.forward
        (PatchEmbedding.init d_model patch_len stride padding drop W peT) x).1
      (B * V) ((T + padding - patch_len) / stride + 1) D ∧
    tget (PatchEmbedding.forward
        (PatchEmbedding.init d_model patch_len stride padding drop W peT) x).1
      (b * V + v) i j =
      dot (W.getD j [])
        (((PatchEmbedding.replicationPad ((x.getD b []).getD v []) padding).drop
            (i * stride)).take patch_len)
      + mget peT i j := by
  have hxp : WF3 (mapRows (fun row => PatchEmbedding.replicationPad row padding) x)
      B V (T + padding) :=
    WF3_mapRows _ hx
      (fun vr hlen => by rw [PatchEmbedding.replicationPad_length, hlen])
  have hxu : WF3 (mapRows (fun row => PatchEmbedding.unfoldRow row patch_len stride)
        (mapRows (fun row => PatchEmbedding.replicationPad row padding) x))
      B V ((T + padding - patch_len) / stride + 1) :=
    WF3_mapRows _ hxp
      (fun vr hlen => by rw [PatchEmbedding.unfoldRow_length, hlen])
  have hxr : WF3 ((mapRows (fun row => PatchEmbedding.unfoldRow row patch_len stride)
        (mapRows (fun row => PatchEmbedding.replicationPad row padding) x)).flatten)
      (B * V) ((T + padding - patch_len) / stride + 1) patch_len := by
    constructor
    · exact PatchEmbedding.flatten_length_eq hxu.1 (fun u hu => (hxu.2 u hu).1)
    · intro mat hmat
      rw [List.mem_flatten] at hmat
      obtain ⟨u, hu, hmatu⟩ := hmat
      simp only [mapRows, List.mem_map] at hu
      obtain ⟨ub, ⟨xb, hxb, rfl⟩, rfl⟩ := hu
      simp only [List.mem_map] at hmatu
      obtain ⟨prow, ⟨xrow, hxrow, rfl⟩, rfl⟩ := hmatu
      have hlen : (PatchEmbedding.replicationPad xrow padding).length = T + padding := by
        rw [PatchEmbedding.replicationPad_length, (hx.2 xb hxb).2 xrow hxrow]
      have hWF := PatchEmbedding.unfoldRow_WF hstride
        (show patch_len ≤ (PatchEmbedding.replicationPad xrow padding).length by
          omega)
      rw [hlen] at hWF
      exact hWF
  have hxe : WF3 (mapRows (linearNoBias W)
        ((mapRows (fun row => PatchEmbedding.unfoldRow row patch_len stride)
          (mapRows (fun row => PatchEmbedding.replicationPad row padding) x)).flatten))
      (B * V) ((T + padding - patch_len) / stride + 1) D :=
    WF3_mapRows _ hxr (fun vr hlen => by rw [linearNoBias_length, hW.1])
  have hBV : 0 < B * V := Nat.mul_pos hB hV
  have hsz : size1 ((mapRows (fun row => PatchEmbedding.unfoldRow row patch_len stride)
        (mapRows (fun row => PatchEmbedding.replicationPad row padding) x)).flatten)
      = (T + padding - patch_len) / stride + 1 := hxr.size1_eq hBV
  have hpos : WF2 ((PositionalEmbedding.forward peT
        ((mapRows (fun row => PatchEmbedding.unfoldRow row patch_len stride)
          (mapRows (fun row => PatchEmbedding.replicationPad row padding) x)).flatten)).headD [])
      ((T + padding - patch_len) / stride + 1) D := by
    show WF2 (peT.take _) _ _
    rw [hsz]
    exact PositionalEmbedding.WF2_take hpe hML
  have hr' : b * V + v < B * V := by
    calc b * V + v < (b + 1) * V := by rw [Nat.succ_mul]; omega
      _ ≤ B * V := Nat.mul_le_mul_right V hb
  refine ⟨hx.size1_eq hB, WF3_addB hxe hpos, ?_⟩
  show tget (addB (mapRows (linearNoBias W)
        ((mapRows (fun row => PatchEmbedding.unfoldRow row patch_len stride)
          (mapRows (fun row => PatchEmbedding.replicationPad row padding) x)).flatten))
      (PositionalEmbedding.forward peT
        ((mapRows (fun row => PatchEmbedding.unfoldRow row patch_len stride)
          (mapRows (fun row => PatchEmbedding.replicationPad row padding) x)).flatten)))
      (b * V + v) i j = _
  rw [tget_addB hxe hpos hr' hi hj]
  rw [tget_mapRows _ hxr hr' hi j]
  rw [vget_linearNoBias _ (by rw [hW.1]; omega)]
  have hb1 : b < (mapRows (fun row => PatchEmbedding.replicationPad row padding) x).length := by
    rw [mapRows_length, hx.1]; omega
  have hv1 : v < ((mapRows (fun row => PatchEmbedding.replicationPad row padding) x).getD b []).length := by
    rw [(hxp.batch hb).1]; omega
  have hb0 : b < x.length := by rw [hx.1]; omega
  have hv0 : v < (x.getD b []).length := by rw [(hx.batch hb).1]; omega
  have h2 : ((mapRows (fun row => PatchEmbedding.unfoldRow row patch_len stride)
        (mapRows (fun row => PatchEmbedding.replicationPad row padding) x)).flatten).getD
        (b * V + v) [] =
      PatchEmbedding.unfoldRow
        (PatchEmbedding.replicationPad ((x.getD b []).getD v []) padding)
        patch_len stride := by
    rw [PatchEmbedding.flatten_getD _ _ (fun u hu => (hxu.2 u hu).1)
        (by rw [mapRows_length, mapRows_length, hx.1]; omega) hv]
    rw [mapRows_row _ hb1 hv1, mapRows_row _ hb0 hv0]
  rw [h2]
  have hplen : (PatchEmbedding.replicationPad ((x.getD b []).getD v []) padding).length
      = T + padding := by
    rw [PatchEmbedding.replicationPad_length, hx.row_length hb hv]
  rw [PatchEmbedding.unfoldRow_getD _ _ _ (by rw [hplen]; omega)]
  show _ + mget (peT.take _) i j = _
  congr 1
  unfold mget
  rw [hsz, PositionalEmbedding.getD_take _ _ hi (by rw [hpe.1]; omega)]

/-- Witness for C4: a single-variate length-2 series with
`patch_len = 2`, `stride = 1`, `padding = 1` (two patches). -/
theorem C4_witness :
    (PatchEmbedding.forward (PatchEmbedding.init 1 2 1 1 0 [[1, 1]]
        [[10], [20], [30]]) [[[1, 2]]]).2 = 1 ∧
    WF3 (PatchEmbedding.forward (PatchEmbedding.init 1 2 1 1 0 [[1, 1]]
        [[10], [20], [30]]) [[[1, 2]]]).1 (1 * 1) ((2 + 1 - 2) / 1 + 1) 1 ∧
    tget (PatchEmbedding.forward (PatchEmbedding.init 1 2 1 1 0 [[1, 1]]
        [[10], [20], [30]]) [[[1, 2]]]).1 (0 * 1 + 0) 1 0 =
      dot ([[(1 : ℚ), 1]].getD 0 [])
        (((PatchEmbedding.replicationPad (([[[(1 : ℚ), 2]]].getD 0 []).getD 0 []) 1).drop
            (1 * 1)).take 2)
      + mget [[(10 : ℚ)], [20], [30]] 1 0 :=
  C4_patchEmbedding_shapes_and_patches 1 2 1 1 0 [[1, 1]] [[10], [20], [30]]
    [[[1, 2]]] 1 1 2 1 3 (by decide) (by decide) (by decide) (by decide)
    (by decide) (by decide) (by decide) (by decide) 0 0 1 0
    (by decide) (by decide) (by decide) (by decide)

/-- C2: under `prompt_tuning_type = "brute_concat"`, both exo-prompt-tuning
constructors give the value embedding the input width
`c_in + exo_prompt_dim`, and in `forward` the `[batch, prompt_dim]`
exo-prompt is broadcast-repeated along the non-batch axis (time axis in
`DataEmbeddingWithExoPromptTuning`, variate axis in the inverted variant)
and concatenated along the channel axis with the raw input before the
value projection: the tensor fed to the value embedding is exactly the
entrywise channel concatenation. -/
theorem C2_brute_concat_prompt_channel_concat :
    (∀ (c d nvt pdim hidden : ℕ) (fr : String) (drop : ℚ)
        (proj : PromptProjector) (convW : Tensor3 ℚ)
        (peT mi ho we da mo WT : List (List ℚ)),
      (DataEmbeddingWithExoPromptTuning.init c d "fixed" fr drop
          "brute_concat" nvt pdim hidden proj convW peT mi ho we da mo
          WT).map (fun m => m.token_c_in) = some (c + pdim)) ∧
    (∀ (c d nvt pdim hidden : ℕ) (fr : String) (drop : ℚ)
        (proj : PromptProjector) (W : List (List ℚ)) (bv : List ℚ),
      (DataEmbedding_inverted_WithExoPromptTuning.init c d "fixed" fr drop
          "brute_concat" nvt pdim hidden proj W bv).map
        (fun m => m.token_c_in) = some (c + pdim)) ∧
    (∀ (m : DataEmbeddingWithExoPromptTuning.Module) (x : Tensor3 ℚ)
        (exo : List (List ℚ)) (B L C P : ℕ),
      m.prompt_tuning_type = "brute_concat" → WF3 x B L C → WF2 exo B P →
      0 < B →
      DataEmbeddingWithExoPromptTuning.forward m x none exo =
        addB (TokenEmbedding.forward m.valueConvW
            (mk3 B L (P + C)
              (fun b l k => if k < P then mget exo b k else tget x b l (k - P))))
          (PositionalEmbedding.forward m.posPe
            (TokenEmbedding.forward m.valueConvW
              (mk3 B L (P + C)
                (fun b l k => if k < P then mget exo b k else tget x b l (k - P)))))) ∧
    (∀ (mi : DataEmbedding_inverted_WithExoPromptTuning.Module) (x : Tensor3 ℚ)
        (exo : List (List ℚ)) (B L V P : ℕ),
      mi.prompt_tuning_type = "brute_concat" → WF3 x B L V → WF2 exo B P →
      0 < B → 0 < L →
      DataEmbedding_inverted_WithExoPromptTuning.forward mi x none exo =
        mapRows (linear mi.valueW mi.valueB)
          (mk3 B V (L + P)
            (fun b v k => if k < L then tget x b k v else mget exo b (k - L)))) := by
  refine ⟨?_, ?_, ?_, ?_⟩
  · intro c d nvt pdim hidden fr drop proj convW peT mi ho we da mo WT
    simp [DataEmbeddingWithExoPromptTuning.init, initTemporalKind]
  · intro c d nvt pdim hidden fr drop proj W bv
    simp [DataEmbedding_inverted_WithExoPromptTuning.init]
  · intro m x exo B L C P hpt hx hexo hB
    simp only [DataEmbeddingWithExoPromptTuning.forward, hpt, String.reduceEq, reduceIte]
    rw [hx.size1_eq hB, cat2_repeat_eq_mk3 hx hexo]
  · intro mi x exo B L V P hpt hx hexo hB hL
    simp only [DataEmbedding_inverted_WithExoPromptTuning.forward, hpt, reduceIte]
    rw [(WF3_permute021 hx hL).size1_eq hB, cat2_perm_repeat_eq_mk3 hx hexo hL]

/-- Witness for C2: the two constructor widths at concrete arguments, and
the two `forward` equations at concrete brute-concat modules and inputs. -/
theorem C2_witness :
    (DataEmbeddingWithExoPromptTuning.init 1 1 "fixed" "h" 0 "brute_concat"
        1 1 1 ⟨[[1]], [0], [[1]], [0], id⟩ [[[0, 1, 0], [0, 1, 0]]]
        [[10], [20], [30]] [[0]] [[0]] [[0]] [[0]] [[0]] [[0]]).map
      (fun m => m.token_c_in) = some (1 + 1) ∧
    (DataEmbedding_inverted_WithExoPromptTuning.init 2 1 "fixed" "h" 0
        "brute_concat" 1 1 1 ⟨[[1]], [0], [[1]], [0], id⟩ [[1, 1, 1]]
        [0]).map (fun m => m.token_c_in) = some (2 + 1) ∧
    DataEmbeddingWithExoPromptTuning.forward
        (DataEmbeddingWithExoPromptTuning.Module.mk "brute_concat" 1 1 2
          ⟨[[1]], [0], [[1]], [0], id⟩ [[[0, 1, 0], [0, 1, 0]]]
          [[10], [20], [30]]
          (TemporalKind.temporal ⟨none, [[0]], [[0]], [[0]], [[0]]⟩))
        [[[5], [6]]] none [[9]] =
      addB (TokenEmbedding.forward [[[0, 1, 0], [0, 1, 0]]]
          (mk3 1 2 (1 + 1)
            (fun b l k => if k < 1 then mget [[(9 : ℚ)]] b k
              else tget [[[(5 : ℚ)], [6]]] b l (k - 1))))
        (PositionalEmbedding.forward [[(10 : ℚ)], [20], [30]]
          (TokenEmbedding.forward [[[0, 1, 0], [0, 1, 0]]]
            (mk3 1 2 (1 + 1)
              (fun b l k => if k < 1 then mget [[(9 : ℚ)]] b k
                else tget [[[(5 : ℚ)], [6]]] b l (k - 1))))) ∧
    DataEmbedding_inverted_WithExoPromptTuning.forward
        (DataEmbedding_inverted_WithExoPromptTuning.Module.mk "brute_concat"
          1 1 3 ⟨[[1]], [0], [[1]], [0], id⟩ [[1, 1, 1]] [0])
        [[[1], [2]]] none [[9]] =
      mapRows (linear [[(1 : ℚ), 1, 1]] [0])
        (mk3 1 1 (2 + 1)
          (fun b v k => if k < 2 then tget [[[(1 : ℚ)], [2]]] b k v
            else mget [[(9 : ℚ)]] b (k - 2))) := by
  refine ⟨?_, ?_, ?_, ?_⟩
  · exact C2_brute_concat_prompt_channel_concat.1 1 1 1 1 1 "h" 0
      ⟨[[1]], [0], [[1]], [0], id⟩ [[[0, 1, 0], [0, 1, 0]]]
      [[10], [20], [30]] [[0]] [[0]] [[0]] [[0]] [[0]] [[0]]
  · exact C2_brute_concat_prompt_channel_concat.2.1 2 1 1 1 1 "h" 0
      ⟨[[1]], [0], [[1]], [0], id⟩ [[1, 1, 1]] [0]
  · exact C2_brute_concat_prompt_channel_concat.2.2.1 _ _ _ 1 2 1 1
      rfl (by decide) (by decide) (by decide)
  · exact C2_brute_concat_prompt_channel_concat.2.2.2 _ _ _ 1 2 1 1
      rfl (by decide) (by decide) (by decide) (by decide)

/-- C9: under `two_layer_mlp` (shown here on the calendar-free path),
`DataEmbeddingWithExoPromptTuning` places the projected virtual-token
block before the embedded real sequence — positions `0 ..
num_virtual_tokens - 1` of the output come from the virtual tokens (plus
the positional entry) and the rest from the embedded input — while
`DataEmbedding_inverted_WithExoPromptTuning` places it after: positions
`≥ V` come from the virtual tokens. -/
theorem C9_virtual_token_placement :
    (∀ (m : DataEmbeddingWithExoPromptTuning.Module) (x : Tensor3 ℚ)
        (exo : List (List ℚ)) (B L C D ML : ℕ) (b s c : ℕ),
      m.prompt_tuning_type = "two_layer_mlp" →
      WF3 m.valueConvW D C 3 → WF3 x B L C → exo.length = B →
      m.exo_prompt_projector.W2.length = m.num_virtual_tokens * D →
      WF2 m.posPe ML D → m.num_virtual_tokens + L ≤ ML →
      0 < L → 0 < C → 0 < D → 0 < m.num_virtual_tokens →
      b < B → s < m.num_virtual_tokens + L → c < D →
      tget (DataEmbeddingWithExoPromptTuning.forward m x none exo) b s c =
        (if s < m.num_virtual_tokens
         then tget (projectPrompt m.exo_prompt_projector
            m.num_virtual_tokens exo) b s c
         else tget (TokenEmbedding.forward m.valueConvW x)
            b (s - m.num_virtual_tokens) c)
        + mget m.posPe s c) ∧
    (∀ (mi : DataEmbedding_inverted_WithExoPromptTuning.Module)
        (x : Tensor3 ℚ) (exo : List (List ℚ)) (B L V D : ℕ) (b s c : ℕ),
      mi.prompt_tuning_type = "two_layer_mlp" →
      WF3 x B L V → exo.length = B →
      mi.exo_prompt_projector.W2.length = mi.num_virtual_tokens * D →
      mi.valueW.length = D →
      0 < L → 0 < mi.num_virtual_tokens →
      b < B → s < V + mi.num_virtual_tokens → c < D →
      tget (DataEmbedding_inverted_WithExoPromptTuning.forward mi x none exo)
          b s c =
        (if s < V
         then tget (mapRows (linear mi.valueW mi.valueB) (x.map transposeM))
            b s c
         else tget (projectPrompt mi.exo_prompt_projector
            mi.num_virtual_tokens exo) b (s - V) c)) := by
  constructor
  · intro m x exo B L C D ML b s c hpt hw hx hexo hW2 hpe hML hL hC hD hnvt
      hb hs hc
    have hvirt : WF3 (projectPrompt m.exo_prompt_projector
        m.num_virtual_tokens exo) B m.num_virtual_tokens D :=
      WF3_projectPrompt hexo hW2 hnvt
    have hemb : WF3 (TokenEmbedding.forward m.valueConvW x) B L D :=
      TokenEmbedding.forward_WF hw hx hL hC hD
    have hcat := WF3_cat1 hvirt hemb
    have h0B : 0 < B := by omega
    have hsz := hcat.size1_eq h0B
    have hpos : WF2 ((PositionalEmbedding.forward m.posPe
        (cat1 (projectPrompt m.exo_prompt_projector m.num_virtual_tokens exo)
          (TokenEmbedding.forward m.valueConvW x))).headD [])
        (m.num_virtual_tokens + L) D := by
      show WF2 (m.posPe.take _) _ _
      rw [hsz]
      exact PositionalEmbedding.WF2_take hpe hML
    simp only [DataEmbeddingWithExoPromptTuning.forward, hpt, String.reduceEq, reduceIte]
    rw [tget_addB hcat hpos hb hs hc]
    rw [tget_cat1 hvirt hemb hb s c]
    congr 1
    show mget (m.posPe.take _) s c = _
    unfold mget
    rw [hsz, PositionalEmbedding.getD_take _ _ hs (by rw [hpe.1]; omega)]
  · intro mi x exo B L V D b s c hpt hx hexo hW2 hval hL hnvt hb hs hc
    have hperm : WF3 (x.map transposeM) B V L := WF3_permute021 hx hL
    have hvp : WF3 (mapRows (linear mi.valueW mi.valueB) (x.map transposeM))
        B V D :=
      WF3_mapRows _ hperm (fun vr hvr => by rw [linear_length, hval])
    have hvirt : WF3 (projectPrompt mi.exo_prompt_projector
        mi.num_virtual_tokens exo) B mi.num_virtual_tokens D :=
      WF3_projectPrompt hexo hW2 hnvt
    simp only [DataEmbedding_inverted_WithExoPromptTuning.forward, hpt,
      String.reduceEq, reduceIte]
    rw [tget_cat1 hvp hvirt hb s c]

/-- Witness for C9: concrete one-virtual-token modules; the main variant at
the first (virtual) position, the inverted variant at the appended
(virtual) position. -/
theorem C9_witness :
    tget (DataEmbeddingWithExoPromptTuning.forward
        (DataEmbeddingWithExoPromptTuning.Module.mk "two_layer_mlp" 1 1 1
          ⟨[[1]], [0], [[1]], [0], id⟩ [[[0, 1, 0]]] [[10], [20], [30]]
          (TemporalKind.temporal ⟨none, [[0]], [[0]], [[0]], [[0]]⟩))
        [[[5], [6]]] none [[2]]) 0 0 0 =
      (if 0 < 1
       then tget (projectPrompt ⟨[[1]], [0], [[1]], [0], id⟩ 1 [[(2 : ℚ)]]) 0 0 0
       else tget (TokenEmbedding.forward [[[0, 1, 0]]] [[[(5 : ℚ)], [6]]])
          0 (0 - 1) 0)
      + mget [[(10 : ℚ)], [20], [30]] 0 0 ∧
    tget (DataEmbedding_inverted_WithExoPromptTuning.forward
        (DataEmbedding_inverted_WithExoPromptTuning.Module.mk "two_layer_mlp"
          1 1 2 ⟨[[1]], [0], [[1]], [0], id⟩ [[1, 1]] [0])
        [[[1], [2]]] none [[2]]) 0 1 0 =
      (if 1 < 1
       then tget (mapRows (linear [[(1 : ℚ), 1]] [0])
          ([[[(1 : ℚ)], [2]]].map transposeM)) 0 1 0
       else tget (projectPrompt ⟨[[1]], [0], [[1]], [0], id⟩ 1 [[(2 : ℚ)]])
          0 (1 - 1) 0) :=
  ⟨C9_virtual_token_placement.1 _ _ _ 1 2 1 1 3 0 0 0 rfl (by decide)
      (by decide) (by decide) (by decide) (by decide) (by decide) (by decide)
      (by decide) (by decide) (by decide) (by decide) (by decide) (by decide),
   C9_virtual_token_placement.2 _ _ _ 1 2 1 1 0 1 0 rfl (by decide)
      (by decide) (by decide) (by decide) (by decide) (by decide) (by decide)
      (by decide) (by decide)⟩

/-- Counterexample for C1: the claim asserts that in the inverted variant
too, the virtual tokens are concatenated with the embedded real sequence
and positional/temporal embeddings are then added on top (the temporal one
zero-padded), which forces `num_virtual_tokens + V` output rows per batch.
With one variate, one virtual token and a non-`None` calendar tensor the
code produces `V + F + num_virtual_tokens = 3` rows, not `2`: the inverted
`forward` concatenates the transposed calendar features as extra variate
rows before the value projection and never adds a positional or temporal
embedding. -/
theorem C1_counterexample :
    ¬ (((DataEmbedding_inverted_WithExoPromptTuning.forward
        (DataEmbedding_inverted_WithExoPromptTuning.Module.mk "two_layer_mlp"
          1 1 2 ⟨[[1]], [0], [[1]], [0], id⟩ [[1, 1]] [0])
        [[[1], [2]]] (some [[[7], [8]]]) [[2]]).getD 0 []).length = 1 + 1) := by
  decide

/-- C1 (amended): with `prompt_tuning_type = "two_layer_mlp"` and a
non-`None` calendar tensor, `DataEmbeddingWithExoPromptTuning` behaves as
claimed — the projected virtual tokens are concatenated (prepended) along
the sequence axis with the embedded real sequence, the positional embedding
is added on top of the combined sequence, and the temporal embedding is
computed only over the real-token span and zero-padded across the
`num_virtual_tokens` virtual positions before being added —, while
`DataEmbedding_inverted_WithExoPromptTuning` concatenates (appends) the
virtual tokens along the sequence axis but adds no positional or temporal
embedding: the calendar tensor is transposed and concatenated as extra
variate rows before the value projection. -/
theorem C1_two_layer_mlp_temporal_handling :
    (∀ (m : DataEmbeddingWithExoPromptTuning.Module) (x xm : Tensor3 ℚ)
        (exo : List (List ℚ)) (B L C D ML : ℕ) (b s c : ℕ),
      m.prompt_tuning_type = "two_layer_mlp" →
      WF3 m.valueConvW D C 3 → WF3 x B L C → exo.length = B →
      m.exo_prompt_projector.W2.length = m.num_virtual_tokens * D →
      WF2 m.posPe ML D → m.num_virtual_tokens + L ≤ ML →
      WF3 (m.temporal.forward xm) B L D →
      0 < L → 0 < C → 0 < D → 0 < m.num_virtual_tokens →
      b < B → s < m.num_virtual_tokens + L → c < D →
      tget (DataEmbeddingWithExoPromptTuning.forward m x (some xm) exo) b s c =
        (if s < m.num_virtual_tokens
         then tget (projectPrompt m.exo_prompt_projector
            m.num_virtual_tokens exo) b s c
         else tget (TokenEmbedding.forward m.valueConvW x)
            b (s - m.num_virtual_tokens) c)
        + mget m.posPe s c
        + (if s < m.num_virtual_tokens then 0
           else tget (m.temporal.forward xm) b (s - m.num_virtual_tokens) c)) ∧
    (∀ (mi : DataEmbedding_inverted_WithExoPromptTuning.Module)
        (x xm : Tensor3 ℚ) (exo : List (List ℚ)) (B L V F D : ℕ) (b s c : ℕ),
      mi.prompt_tuning_type = "two_layer_mlp" →
      WF3 x B L V → WF3 xm B L F → exo.length = B →
      mi.exo_prompt_projector.W2.length = mi.num_virtual_tokens * D →
      mi.valueW.length = D →
      0 < L → 0 < mi.num_virtual_tokens →
      b < B → s < V + F + mi.num_virtual_tokens → c < D →
      tget (DataEmbedding_inverted_WithExoPromptTuning.forward mi x (some xm)
          exo) b s c =
        (if s < V + F
         then tget (mapRows (linear mi.valueW mi.valueB)
            (cat1 (x.map transposeM) (xm.map transposeM))) b s c
         else tget (projectPrompt mi.exo_prompt_projector
            mi.num_virtual_tokens exo) b (s - (V + F)) c)) := by
  constructor
  · intro m x xm exo B L C D ML b s c hpt hw hx hexo hW2 hpe hML htemp
      hL hC hD hnvt hb hs hc
    have hvirt : WF3 (projectPrompt m.exo_prompt_projector
        m.num_virtual_tokens exo) B m.num_virtual_tokens D :=
      WF3_projectPrompt hexo hW2 hnvt
    have hemb : WF3 (TokenEmbedding.forward m.valueConvW x) B L D :=
      TokenEmbedding.forward_WF hw hx hL hC hD
    have hcat := WF3_cat1 hvirt hemb
    have h0B : 0 < B := by omega
    have hsz := hcat.size1_eq h0B
    have hpos : WF2 ((PositionalEmbedding.forward m.posPe
        (cat1 (projectPrompt m.exo_prompt_projector m.num_virtual_tokens exo)
          (TokenEmbedding.forward m.valueConvW x))).headD [])
        (m.num_virtual_tokens + L) D := by
      show WF2 (m.posPe.take _) _ _
      rw [hsz]
      exact PositionalEmbedding.WF2_take hpe hML
    have hzeros : WF3 (zerosLike (projectPrompt m.exo_prompt_projector
        m.num_virtual_tokens exo)) B m.num_virtual_tokens D :=
      WF3_zerosLike hvirt
    have hpad := WF3_cat1 hzeros htemp
    have hwithpos := WF3_addB hcat hpos
    have hpe_entry : mget ((PositionalEmbedding.forward m.posPe
        (cat1 (projectPrompt m.exo_prompt_projector m.num_virtual_tokens exo)
          (TokenEmbedding.forward m.valueConvW x))).headD []) s c =
        mget m.posPe s c := by
      show mget (m.posPe.take _) s c = _
      unfold mget
      rw [hsz, PositionalEmbedding.getD_take _ _ hs (by rw [hpe.1]; omega)]
    simp only [DataEmbeddingWithExoPromptTuning.forward, hpt,
      String.reduceEq, reduceIte, List.mem_cons, List.not_mem_nil, or_false,
      not_false_eq_true]
    rw [tget_add3 hwithpos hpad hb hs hc]
    rw [tget_addB hcat hpos hb hs hc]
    rw [tget_cat1 hvirt hemb hb s c]
    rw [tget_cat1 hzeros htemp hb s c]
    rw [hpe_entry]
    by_cases hsv : s < m.num_virtual_tokens
    · rw [if_pos hsv, if_pos hsv, if_pos hsv,
          tget_zerosLike hvirt hb hsv hc]
    · rw [if_neg hsv, if_neg hsv, if_neg hsv]
  · intro mi x xm exo B L V F D b s c hpt hx hxm hexo hW2 hval hL hnvt
      hb hs hc
    have hperm : WF3 (x.map transposeM) B V L := WF3_permute021 hx hL
    have hpermm : WF3 (xm.map transposeM) B F L := WF3_permute021 hxm hL
    have hcat := WF3_cat1 hperm hpermm
    have hvp : WF3 (mapRows (linear mi.valueW mi.valueB)
        (cat1 (x.map transposeM) (xm.map transposeM))) B (V + F) D :=
      WF3_mapRows _ hcat (fun vr hvr => by rw [linear_length, hval])
    have hvirt : WF3 (projectPrompt mi.exo_prompt_projector
        mi.num_virtual_tokens exo) B mi.num_virtual_tokens D :=
      WF3_projectPrompt hexo hW2 hnvt
    simp only [DataEmbedding_inverted_WithExoPromptTuning.forward, hpt,
      String.reduceEq, reduceIte]
    rw [tget_cat1 hvp hvirt hb s c]

/-- Witness for the amended C1: the main variant at a virtual position (the
temporal contribution is the zero filler there), and the inverted variant
at the appended virtual position. -/
theorem C1_witness :
    tget (DataEmbeddingWithExoPromptTuning.forward
        (DataEmbeddingWithExoPromptTuning.Module.mk "two_layer_mlp" 1 1 1
          ⟨[[1]], [0], [[1]], [0], id⟩ [[[0, 1, 0]]] [[10], [20], [30]]
          (TemporalKind.temporal ⟨none, [[0]], [[0]], [[0]], [[0]]⟩))
        [[[5], [6]]]
        (some [[[0, 0, 0, 0, 0], [0, 0, 0, 0, 0]]]) [[2]]) 0 0 0 =
      (if 0 < 1
       then tget (projectPrompt ⟨[[1]], [0], [[1]], [0], id⟩ 1 [[(2 : ℚ)]]) 0 0 0
       else tget (TokenEmbedding.forward [[[0, 1, 0]]] [[[(5 : ℚ)], [6]]])
          0 (0 - 1) 0)
      + mget [[(10 : ℚ)], [20], [30]] 0 0
      + (if 0 < 1 then 0
         else tget ((TemporalKind.temporal
            (TemporalEmbedding.Module.mk none [[0]] [[0]] [[0]] [[0]])).forward
            [[[0, 0, 0, 0, 0], [0, 0, 0, 0, 0]]]) 0 (0 - 1) 0) ∧
    tget (DataEmbedding_inverted_WithExoPromptTuning.forward
        (DataEmbedding_inverted_WithExoPromptTuning.Module.mk "two_layer_mlp"
          1 1 2 ⟨[[1]], [0], [[1]], [0], id⟩ [[1, 1]] [0])
        [[[1], [2]]] (some [[[7], [8]]]) [[2]]) 0 2 0 =
      (if 2 < 1 + 1
       then tget (mapRows (linear [[(1 : ℚ), 1]] [0])
          (cat1 ([[[(1 : ℚ)], [2]]].map transposeM)
            ([[[(7 : ℚ)], [8]]].map transposeM))) 0 2 0
       else tget (projectPrompt ⟨[[1]], [0], [[1]], [0], id⟩ 1 [[(2 : ℚ)]])
          0 (2 - (1 + 1)) 0) :=
  ⟨C1_two_layer_mlp_temporal_handling.1 _ _ _ _ 1 2 1 1 3 0 0 0 rfl
      (by decide) (by decide) (by decide) (by decide) (by decide) (by decide)
      (by decide) (by decide) (by decide) (by decide) (by decide) (by decide)
      (by decide) (by decide),
   C1_two_layer_mlp_temporal_handling.2 _ _ _ _ 1 2 1 1 1 0 2 0 rfl
      (by decide) (by decide) (by decide) (by decide) (by decide) (by decide)
      (by decide) (by decide) (by decide) (by decide)⟩

end Claims

end Embed
